import Mathlib

/-!
# jsongroup — verification of the spec's claims against the source

A shallow embedding of the `jsongroup` Go library (group-filtered JSON
serialization). The embedding follows the current revision of the source:
the traversal engine of `src/unnamed/part_000` (lines 1–577: `serializeContext`,
`valueToMap`, `structToMap`, `mapToMap`, `sliceToSlice`, predicates, the
public entry points) and the LRU field cache of `src/unnamed/part_001`
(lines 1–395: `fieldCache`, `getFieldsInfo`, `SetMaxSize`, `evict`), together
with the error model of `src/unnamed/part_003`.

Modelling conventions:
* Go values traversed by reflection become the inductive `GVal`; reference
  identity (what `reflect.Value.Pointer()` returns) is an explicit address
  into a finite heap `Heap` mapping addresses to pointees / backing stores.
* The mutable per-call `serializeContext` is threaded functionally: `path`
  and `depth` are plain fields copied downward exactly as `withPath` copies
  them, and the shared `pointers` map (additions are visible to every later
  step of the same call, never removed) is returned upward by every
  traversal function.
* Go's unbounded recursion is given an explicit fuel parameter; `none`
  means "out of fuel".  An adequacy theorem shows fuel beyond an explicit
  budget is never exhausted when cycle checking is on.
* Struct values carry their already-resolved field metadata
  (`fieldInfo` × value), standing for what `getFieldsInfo`/`parseFields`
  produce and `FieldByIndex` reads back; the field cache itself is modelled
  separately (it is keyed by type and orthogonal to single-call traversal).
* Scalar kinds not exercised by any claim (floats, complex numbers,
  unsigned variants) are omitted from `GVal`; their fast-path branches in
  the source do not interact with depth, cycles, grouping or emptiness.
* Arrays (`GVal.varr`) hold their elements inline: the Array kind has no
  reference identity in the source (never recorded by `checkPointer`) and,
  unlike Slice/Map, no exemption from the depth-limit error.
-/

namespace JsonGroup

/-- `GroupMode` (options.go): OR / AND combination of requested groups. -/
inductive GroupMode where
  | modeOr : GroupMode
  | modeAnd : GroupMode
deriving DecidableEq, Repr

/-- `Options` (options.go, current revision: the fields read by the traversal
engine).  `maxDepth = 0` means unlimited depth. -/
structure Options where
  groupMode : GroupMode
  topLevelKey : String
  tagKey : String
  nullIfEmpty : Bool
  ignoreNilPointers : Bool
  maxDepth : Nat
  disableCircularCheck : Bool
deriving DecidableEq, Repr

/-- `ErrType` (part_003): the closed error taxonomy. -/
inductive ErrType where
  | unknown
  | maxDepthExceeded
  | circularReference
  | unsupportedType
  | reflectionFault
  | cacheOverflow
deriving DecidableEq, Repr

/-- `Error` (part_003): typed error with path context.  The `Value any`
field is dropped (it only echoes the offending value); `Cause` is kept as
its rendered message. -/
structure JError where
  etype : ErrType
  message : String
  path : String
  cause : Option String
deriving DecidableEq, Repr

/-- `MaxDepthError` (part_003 lines 61-72). -/
def maxDepthError (path : String) (maxDepth : Nat) : JError :=
  ⟨ErrType.maxDepthExceeded, "已超过最大递归深度限制(" ++ toString maxDepth ++ ")", path, none⟩

/-- `CircularReferenceError` (part_003 lines 75-86). -/
def circularReferenceError (path : String) : JError :=
  ⟨ErrType.circularReference, "检测到循环引用", path, none⟩

/-- `ReflectionError` (part_003 lines 114-121). -/
def reflectionError (path : String) (cause : String) : JError :=
  ⟨ErrType.reflectionFault, "反射操作错误", path, some cause⟩

/-- A Go `error` value as the traversal engine sees one: either a plain
`errors.New` string (the `"skip_field"` control signal) or a typed `*Error`. -/
inductive GoErr where
  | simple (msg : String)
  | typed (e : JError)
deriving DecidableEq, Repr

/-- The `err.Error() == "skip_field"` test of structToMap (part_000 line 410):
of the errors the traversal produces, exactly the plain `errors.New("skip_field")`
renders as that string (typed errors render with their own messages/paths). -/
def GoErr.isSkipField : GoErr → Bool
  | GoErr.simple m => m = "skip_field"
  | GoErr.typed _ => false

/-- `WrapJSONError` (part_003 lines 156-189) restricted to the errors the
traversal engine produces: a typed `*Error` passes through unchanged
(`errors.As` branch); any other error falls to the default branch and is
wrapped as an unknown-kind typed error carrying the message and cause.
(The `encoding/json` error cases concern the external encoder only.) -/
def wrapJSONError (err : GoErr) (path : String) : GoErr :=
  match err with
  | GoErr.typed e => GoErr.typed e
  | GoErr.simple msg => GoErr.typed ⟨ErrType.unknown, msg, path, some msg⟩

/-- The intermediate representation the traversal builds (JSON-shaped tree).
`obj` keeps insertion order of a Go `map[string]any` abstractly as an
association list written through `mapInsert`. -/
inductive IR where
  | null
  | b (x : Bool)
  | i (n : Int)
  | s (str : String)
  | time (isZero : Bool)
  | arr (elems : List IR)
  | obj (entries : List (String × IR))

/-- The Go `fieldInterface != nil` test on an `any` holding an IR value. -/
def IR.isNull : IR → Bool
  | IR.null => true
  | _ => false

/-- Go map assignment `m[k] = v`: overwrite the key if present, else add. -/
def mapInsert (m : List (String × IR)) (k : String) (v : IR) : List (String × IR) :=
  match m with
  | [] => [(k, v)]
  | (k', v') :: t => if k' = k then (k, v) :: t else (k', v') :: mapInsert t k v

/-- `fieldInfo` (part_001 lines 24-39) as the traversal consumes it; the
`Index []int` access path is represented by attaching the field's value
directly in `GVal.vstruct`. -/
structure fieldInfo where
  name : String
  jsonName : String
  groups : List String
  omitEmpty : Bool
  omitZero : Bool
  anonymous : Bool
deriving DecidableEq, Repr

/-- A Go map key of the kinds `mapToMap` stringifies. -/
inductive GKey where
  | ks (s : String)
  | ki (n : Int)
  | ku (n : Nat)
deriving DecidableEq, Repr

/-- Key stringification of `mapToMap` (part_000 lines 440-451): strings pass
through, signed/unsigned integers render in decimal. -/
def keyStr : GKey → String
  | GKey.ks s => s
  | GKey.ki n => toString n
  | GKey.ku n => toString n

/-- A reflected Go value.  Reference-bearing kinds (`vptr`, `vslice`, `vmap`)
carry the address that `reflect.Value.Pointer()` yields; their pointee /
backing store lives in the `Heap`.  `vslice` also records `IsNil()` (a nil
slice has length 0 and is rendered differently from an empty one under the
null-if-empty policy).  `varr` is the Array kind: a value type holding its
elements inline — it has no reference identity (`checkPointer` never tests
Array, line 79) and it does NOT share the Slice/Map exemption from the
depth-limit error (line 241 tests only Slice and Map). -/
inductive GVal where
  | vstr (s : String)
  | vbool (x : Bool)
  | vint (n : Int)
  | vnilPtr
  | vnilIface
  | vptr (a : Nat)
  | viface (v : GVal)
  | vtime (isZero : Bool)
  | vstruct (fs : List (fieldInfo × GVal))
  | vslice (isNil : Bool) (a : Nat)
  | varr (elems : List GVal)
  | vmap (a : Nat)

/-- A heap cell: a pointer's pointee, a slice's backing elements, or a map's
entries. -/
inductive HNode where
  | nPtr (v : GVal)
  | nSlice (elems : List GVal)
  | nMap (entries : List (GKey × GVal))

/-- The reference heap: association list from address to cell. -/
abbrev Heap : Type := List (Nat × HNode)

def heapGet (heap : Heap) (a : Nat) : Option HNode :=
  List.lookup a heap

/-- `v.Len()` for slice/map kinds (0 for everything else; a nil slice has
length 0). -/
def gvalLen (heap : Heap) : GVal → Nat
  | GVal.vslice isNil a =>
      if isNil then 0 else
        match heapGet heap a with
        | some (HNode.nSlice es) => es.length
        | _ => 0
  | GVal.varr es => es.length
  | GVal.vmap a =>
      match heapGet heap a with
      | some (HNode.nMap kvs) => kvs.length
      | _ => 0
  | _ => 0

/-- `isEmptyValue` (part_000 lines 500-517): zero-length containers, zero
numbers, false booleans, nil references and empty strings are "empty";
structs (including `time.Time`) are not. -/
def isEmptyValue (heap : Heap) : GVal → Bool
  | GVal.vstr s => s = ""
  | GVal.vbool x => !x
  | GVal.vint n => n = 0
  | GVal.vnilPtr => true
  | GVal.vnilIface => true
  | GVal.vptr _ => false
  | GVal.viface _ => false
  | v@(GVal.vslice _ _) => gvalLen heap v = 0
  | v@(GVal.varr _) => gvalLen heap v = 0
  | v@(GVal.vmap _) => gvalLen heap v = 0
  | _ => false

/-- `isZeroValue` (part_000 lines 316-341): like emptiness on scalars and nil
references, `time.Time` is zero iff its instant is, but collections
(arrays/maps/slices) are NEVER zero, even with length 0. -/
def isZeroValue : GVal → Bool
  | GVal.vstr s => s = ""
  | GVal.vbool x => !x
  | GVal.vint n => n = 0
  | GVal.vnilPtr => true
  | GVal.vnilIface => true
  | GVal.vptr _ => false
  | GVal.viface _ => false
  | GVal.vtime z => z
  | GVal.vstruct _ => false
  | GVal.vslice _ _ => false
  | GVal.varr _ => false
  | GVal.vmap _ => false

/-- `shouldIncludeField` (part_000 lines 520-553). -/
def shouldIncludeField (field : fieldInfo) (mode : GroupMode) (groups : List String) : Bool :=
  if groups.length = 0 then
    true
  else if field.groups.length = 0 then
    false
  else
    match mode with
    | GroupMode.modeOr => groups.any (fun g => field.groups.contains g)
    | GroupMode.modeAnd => groups.all (fun g => field.groups.contains g)

/-- `serializeContext` (part_000 lines 15-25).  `pointers` is the visited
map from reference address to the path of its first visit. -/
structure serializeContext where
  path : String
  depth : Nat
  pointers : List (Nat × String)
  opts : Options
deriving DecidableEq, Repr

/-- `newContext` (part_000 lines 28-35). -/
def newContext (opts : Options) : serializeContext :=
  ⟨"", 0, [], opts⟩

/-- `withPath` (part_000 lines 38-52): child context with the segment
appended to the dotted path; depth is copied, the pointers map is shared. -/
def serializeContext.withPath (ctx : serializeContext) (segment : String) : serializeContext :=
  let newPath := if ctx.path = "" then segment else ctx.path ++ "." ++ segment
  { ctx with path := newPath }

/-- `enterLevel` (part_000 lines 55-61): increment the depth, fail when a
positive `MaxDepth` is exceeded.  (`leaveLevel` needs no counterpart: depth
is threaded by value, child calls receive the incremented copy.) -/
def serializeContext.enterLevel (ctx : serializeContext) :
    Except JError serializeContext :=
  if 0 < ctx.opts.maxDepth ∧ ctx.opts.maxDepth < ctx.depth + 1 then
    Except.error (maxDepthError ctx.path ctx.opts.maxDepth)
  else
    Except.ok { ctx with depth := ctx.depth + 1 }

/-- The address-membership test and insertion of `checkPointer`
(part_000 lines 81-86). -/
def checkAddr (ctx : serializeContext) (a : Nat) :
    Except JError (List (Nat × String)) :=
  if (List.lookup a ctx.pointers).isSome then
    Except.error (circularReferenceError ctx.path)
  else
    Except.ok ((a, ctx.path) :: ctx.pointers)

/-- `checkPointer` (part_000 lines 69-88): disabled check passes; empty
maps/slices are exempt; a non-nil pointer/map/slice address already in the
visited map is a circular reference, otherwise it is recorded at the
current path. -/
def checkPointer (ctx : serializeContext) (heap : Heap) (v : GVal) :
    Except JError (List (Nat × String)) :=
  if ctx.opts.disableCircularCheck then
    Except.ok ctx.pointers
  else
    match v with
    | GVal.vptr a => checkAddr ctx a
    | GVal.vslice isNil a =>
        if gvalLen heap v = 0 then Except.ok ctx.pointers
        else if isNil then Except.ok ctx.pointers
        else checkAddr ctx a
    | GVal.vmap a =>
        if gvalLen heap v = 0 then Except.ok ctx.pointers
        else checkAddr ctx a
    | _ => Except.ok ctx.pointers

/-- The reflect panic that `v.IsNil()` raises on an Array kind (part_000
line 297 is reached by a zero-length array under the null-if-empty policy),
as wrapped by the first enclosing deferred recover (lines 185-192: the
recovered `*reflect.ValueError` goes through `WrapJSONError`'s default
branch).  The traversal's error channel here stands for the panic's
abortive unwinding — identical propagation through every loop and
`skip_field` test; that the payload then crosses the public boundary as a
re-raised panic rather than a returned error is claim C1's finding,
modelled by `runWithRecover`. -/
def isNilOnArrayFault (path : String) : GoErr :=
  GoErr.typed ⟨ErrType.unknown, "reflect: call of reflect.Value.IsNil on array Value",
    path, some "reflect: call of reflect.Value.IsNil on array Value"⟩

/-- The `default:` branch of `valueToMap`'s kind switch
(`return v.Interface(), nil`): generic scalar extraction. -/
def goInterface : GVal → IR
  | GVal.vstr s => IR.s s
  | GVal.vbool x => IR.b x
  | GVal.vint n => IR.i n
  | GVal.vtime z => IR.time z
  | _ => IR.null

/-!
## The traversal engine (`valueToMap` and helpers, part_000 lines 183-498)

The four mutually recursive functions mirror the Go functions of the same
names; `structFields`, `mapEntries` and `sliceElems` are the loop bodies of
`structToMap` / `mapToMap` / `sliceToSlice` over the remaining items,
carrying the partial result.  Every recursive call consumes one unit of
fuel; `none` = out of fuel.  Each function returns the (possibly grown)
visited-pointer map alongside its `(result, error)` pair, modelling the Go
map shared by reference.  The panic-recovery `defer` of `valueToMap` has no
counterpart here because the modelled operations are total; the panic
boundary of the public entry points is modelled separately below.
-/

mutual

/-- `valueToMap` (part_000 lines 183-312). -/
def valueToMap (fuel : Nat) (heap : Heap) (ctx : serializeContext) (v : GVal)
    (groups : List String) (mode : GroupMode) :
    Option (Except GoErr IR × List (Nat × String)) :=
  match fuel with
  | 0 => none
  | fuel + 1 =>
    match v with
    -- scalar fast path (lines 198-228): no depth increment, no cycle check
    | GVal.vstr s =>
        if s = "" ∧ ctx.opts.nullIfEmpty then some (Except.ok IR.null, ctx.pointers)
        else some (Except.ok (IR.s s), ctx.pointers)
    | GVal.vbool x => some (Except.ok (IR.b x), ctx.pointers)
    | GVal.vint n => some (Except.ok (IR.i n), ctx.pointers)
    -- nil pointer / nil interface (lines 230-236)
    | GVal.vnilPtr =>
        if ctx.opts.ignoreNilPointers then
          some (Except.error (GoErr.simple "skip_field"), ctx.pointers)
        else some (Except.ok IR.null, ctx.pointers)
    | GVal.vnilIface => some (Except.ok IR.null, ctx.pointers)
    | _ =>
      -- enterLevel with the empty-collection exception (lines 238-258)
      match ctx.enterLevel with
      | Except.error e =>
          (match v with
           | GVal.vslice _ _ =>
               if gvalLen heap v = 0 then
                 if ctx.opts.nullIfEmpty then some (Except.ok IR.null, ctx.pointers)
                 else some (Except.ok (IR.arr []), ctx.pointers)
               else some (Except.error (GoErr.typed e), ctx.pointers)
           | GVal.vmap _ =>
               if gvalLen heap v = 0 then
                 if ctx.opts.nullIfEmpty then some (Except.ok IR.null, ctx.pointers)
                 else some (Except.ok (IR.obj []), ctx.pointers)
               else some (Except.error (GoErr.typed e), ctx.pointers)
           | _ => some (Except.error (GoErr.typed e), ctx.pointers))
      | Except.ok ctx1 =>
        -- cycle check for pointer-like kinds (lines 260-265)
        match
          (match v with
           | GVal.vptr _ => checkPointer ctx1 heap v
           | GVal.vslice _ _ => checkPointer ctx1 heap v
           | GVal.vmap _ => checkPointer ctx1 heap v
           | _ => Except.ok ctx1.pointers) with
        | Except.error e => some (Except.error (GoErr.typed e), ctx1.pointers)
        | Except.ok ptrs1 =>
          let ctx2 : serializeContext := { ctx1 with pointers := ptrs1 }
          -- kind switch (lines 267-311)
          match v with
          | GVal.vptr a =>
              (match heapGet heap a with
               | some (HNode.nPtr w) =>
                   valueToMap fuel heap (ctx2.withPath "") w groups mode
               | _ =>
                   some (Except.error
                     (GoErr.typed (reflectionError ctx2.path "dangling pointer")),
                     ctx2.pointers))
          | GVal.viface w => valueToMap fuel heap (ctx2.withPath "") w groups mode
          | GVal.vtime z =>
              if z ∧ ctx2.opts.nullIfEmpty then some (Except.ok IR.null, ctx2.pointers)
              else some (Except.ok (IR.time z), ctx2.pointers)
          | GVal.vstruct fs => structFields fuel heap ctx2 fs groups mode []
          | GVal.vmap a =>
              if gvalLen heap v = 0 ∧ ctx2.opts.nullIfEmpty then
                some (Except.ok IR.null, ctx2.pointers)
              else
                (match heapGet heap a with
                 | some (HNode.nMap kvs) => mapEntries fuel heap ctx2 kvs groups mode []
                 | _ =>
                     some (Except.error
                       (GoErr.typed (reflectionError ctx2.path "dangling map")),
                       ctx2.pointers))
          | GVal.vslice isNil a =>
              if gvalLen heap v = 0 then
                if ctx2.opts.nullIfEmpty then
                  if isNil then some (Except.ok IR.null, ctx2.pointers)
                  else some (Except.ok (IR.arr []), ctx2.pointers)
                else some (Except.ok (IR.arr []), ctx2.pointers)
              else
                (match heapGet heap a with
                 | some (HNode.nSlice es) => sliceElems fuel heap ctx2 0 es groups mode []
                 | _ =>
                     some (Except.error
                       (GoErr.typed (reflectionError ctx2.path "dangling slice")),
                       ctx2.pointers))
          | GVal.varr es =>
              -- arrays share the Slice case of the kind switch (line 292) but
              -- reach `v.IsNil()` when empty under null-if-empty, a reflect
              -- panic (see isNilOnArrayFault)
              if gvalLen heap v = 0 then
                if ctx2.opts.nullIfEmpty then
                  some (Except.error (isNilOnArrayFault ctx2.path), ctx2.pointers)
                else some (Except.ok (IR.arr []), ctx2.pointers)
              else sliceElems fuel heap ctx2 0 es groups mode []
          | w => some (Except.ok (goInterface w), ctx2.pointers)

/-- The field loop of `structToMap` (part_000 lines 356-424), over the
remaining resolved fields with the partial result map `acc`. -/
def structFields (fuel : Nat) (heap : Heap) (ctx : serializeContext)
    (fields : List (fieldInfo × GVal)) (groups : List String) (mode : GroupMode)
    (acc : List (String × IR)) :
    Option (Except GoErr IR × List (Nat × String)) :=
  match fuel with
  | 0 => none
  | fuel + 1 =>
    match fields with
    | [] => some (Except.ok (IR.obj acc), ctx.pointers)
    | (field, fv) :: rest =>
      -- group filtering (line 358)
      if ¬ shouldIncludeField field mode groups then
        structFields fuel heap ctx rest groups mode acc
      else
        let fieldCtx := ctx.withPath field.name
        -- embedded anonymous struct (lines 369-383): recurse and merge keys
        if field.anonymous && (match fv with | GVal.vstruct _ => true | GVal.vtime _ => true | _ => false) then
          match fv with
          | GVal.vstruct efs =>
              (match structFields fuel heap fieldCtx efs groups mode [] with
               | none => none
               | some (Except.error e, ptrs') => some (Except.error e, ptrs')
               | some (Except.ok ir, ptrs') =>
                   let ctx' : serializeContext := { ctx with pointers := ptrs' }
                   match ir with
                   | IR.obj em =>
                       structFields fuel heap ctx' rest groups mode
                         (em.foldl (fun m kv => mapInsert m kv.1 kv.2) acc)
                   | _ => structFields fuel heap ctx' rest groups mode acc)
          | _ =>
              -- an embedded time.Time: its fields are unexported, so the
              -- recursive structToMap merges nothing
              structFields fuel heap ctx rest groups mode acc
        else
          -- nil pointer suppression (lines 386-389)
          let isNilPointer : Bool := match fv with | GVal.vnilPtr => true | _ => false
          if isNilPointer ∧ ctx.opts.ignoreNilPointers then
            structFields fuel heap ctx rest groups mode acc
          else
            -- emptiness / zero tests (lines 392-393)
            let isNilOrEmpty : Bool := isNilPointer ∨ isEmptyValue heap fv
            let isZero : Bool := isZeroValue fv
            -- omitempty / omitzero (lines 396-399)
            if (field.omitEmpty ∧ isNilOrEmpty ∧ ¬ ctx.opts.nullIfEmpty) ∨
               (field.omitZero ∧ isZero ∧ ¬ ctx.opts.nullIfEmpty) then
              structFields fuel heap ctx rest groups mode acc
            -- null-if-empty short-circuit (lines 401-404)
            else if isNilOrEmpty ∧ ctx.opts.nullIfEmpty then
              structFields fuel heap ctx rest groups mode (mapInsert acc field.jsonName IR.null)
            else
              -- recursive field conversion (lines 407-421)
              match valueToMap fuel heap fieldCtx fv groups mode with
              | none => none
              | some (Except.error e, ptrs') =>
                  if e.isSkipField then
                    structFields fuel heap { ctx with pointers := ptrs' } rest groups mode acc
                  else some (Except.error e, ptrs')
              | some (Except.ok ir, ptrs') =>
                  let ctx' : serializeContext := { ctx with pointers := ptrs' }
                  if ¬ ir.isNull then
                    structFields fuel heap ctx' rest groups mode (mapInsert acc field.jsonName ir)
                  else if ctx.opts.nullIfEmpty then
                    structFields fuel heap ctx' rest groups mode (mapInsert acc field.jsonName IR.null)
                  else
                    structFields fuel heap ctx' rest groups mode acc

/-- The entry loop of `mapToMap` (part_000 lines 434-466). -/
def mapEntries (fuel : Nat) (heap : Heap) (ctx : serializeContext)
    (entries : List (GKey × GVal)) (groups : List String) (mode : GroupMode)
    (acc : List (String × IR)) :
    Option (Except GoErr IR × List (Nat × String)) :=
  match fuel with
  | 0 => none
  | fuel + 1 =>
    match entries with
    | [] => some (Except.ok (IR.obj acc), ctx.pointers)
    | (k, mv) :: rest =>
      let ks := keyStr k
      let itemCtx := ctx.withPath ks
      match valueToMap fuel heap itemCtx mv groups mode with
      | none => none
      | some (Except.error e, ptrs') => some (Except.error e, ptrs')
      | some (Except.ok ir, ptrs') =>
          let ctx' : serializeContext := { ctx with pointers := ptrs' }
          if ¬ ir.isNull ∨ ctx.opts.nullIfEmpty then
            mapEntries fuel heap ctx' rest groups mode (mapInsert acc ks ir)
          else
            mapEntries fuel heap ctx' rest groups mode acc

/-- The element loop of `sliceToSlice` (part_000 lines 479-495); `i` is the
running index used for the `[i]` path segment. -/
def sliceElems (fuel : Nat) (heap : Heap) (ctx : serializeContext)
    (i : Nat) (elems : List GVal) (groups : List String) (mode : GroupMode)
    (acc : List IR) :
    Option (Except GoErr IR × List (Nat × String)) :=
  match fuel with
  | 0 => none
  | fuel + 1 =>
    match elems with
    | [] => some (Except.ok (IR.arr acc), ctx.pointers)
    | item :: rest =>
      let itemCtx := ctx.withPath ("[" ++ toString i ++ "]")
      match valueToMap fuel heap itemCtx item groups mode with
      | none => none
      | some (Except.error e, ptrs') => some (Except.error e, ptrs')
      | some (Except.ok ir, ptrs') =>
          let ctx' : serializeContext := { ctx with pointers := ptrs' }
          if ¬ ir.isNull ∨ ctx.opts.nullIfEmpty then
            sliceElems fuel heap ctx' (i + 1) rest groups mode (acc ++ [ir])
          else
            sliceElems fuel heap ctx' (i + 1) rest groups mode acc

end

/-- `MarshalToMapWithOptions` (part_000 lines 146-180), up to the point where
the result map is produced (`v = none` models a nil `any` argument, returning
`(nil, nil)`).  The deferred panic recovery is modelled separately: no
modelled operation panics. -/
def MarshalToMapWithOptions (fuel : Nat) (heap : Heap) (v : Option GVal)
    (opts : Options) (groups : List String) :
    Option (Except GoErr (Option (List (String × IR)))) :=
  match v with
  | none => some (Except.ok none)
  | some v =>
    let ctx := newContext opts
    match valueToMap fuel heap ctx v groups opts.groupMode with
    | none => none
    | some (Except.error e, _) => some (Except.error (wrapJSONError e "Root"))
    | some (Except.ok ir, _) =>
      match ir with
      | IR.obj m => some (Except.ok (some m))
      | r => some (Except.ok (some [("value", r)]))

/-!
## The panic boundary of the public entry points (part_000 lines 96-107 and 148-155)

`MarshalByGroupsWithOptions` and `MarshalToMapWithOptions` install a
deferred `recover()`.  `GoOutcome` is the observable outcome of a Go call:
a normal return or an escaping panic.  A deferred recover-handler maps the
panicked outcome to whatever the handler does with the recovered value.
-/

/-- A recovered panic payload: either a value implementing `error`
(`r.(error)` succeeds) or any other value (rendered via `fmt.Errorf("%v", r)`). -/
inductive PanicValue where
  | perr (e : GoErr)
  | pother (s : String)
deriving DecidableEq, Repr

/-- The outcome of a Go function call as its caller observes it. -/
inductive GoOutcome (α : Type) where
  | ok (a : α)
  | panicked (p : PanicValue)
deriving DecidableEq, Repr

/-- The deferred handler installed by `MarshalByGroupsWithOptions`
(part_000 lines 98-107) and `MarshalToMapWithOptions` (lines 148-155),
applied to a recovered payload: an `error` payload is re-raised as
`panic(WrapJSONError(err, "Root"))`, any other payload as
`panic(ReflectionError("Root", fmt.Errorf("%v", r)))` — in both cases the
handler panics again rather than assigning the converted error to the
function's return values. -/
def marshalRecoverHandler (r : PanicValue) : PanicValue :=
  match r with
  | PanicValue.perr e => PanicValue.perr (wrapJSONError e "Root")
  | PanicValue.pother s => PanicValue.perr (GoErr.typed (reflectionError "Root" s))

/-- Running a call body under a deferred `recover()` whose handler re-raises
`handler r`: a normal return passes through; a panic is recovered and the
handler's payload is panicked in its place. -/
def runWithRecover {α : Type} (handler : PanicValue → PanicValue) :
    GoOutcome α → GoOutcome α
  | GoOutcome.ok a => GoOutcome.ok a
  | GoOutcome.panicked r => GoOutcome.panicked (handler r)

/-!
## Reference graph and traversal budget

`valRefs`/`nodeRefs` read off the addresses a value/cell references
directly; `hasCycleReachableFrom` decides (by bounded expansion, enough for
a finite heap) whether the reference graph of a structure contains a cycle
reachable from the root — the hypothesis of the spec's cycle law.  The
`gsize`/`heapBudget` measures bound the traversal's call depth: every
recursive call either strictly descends a value or permanently claims an
unvisited heap address.
-/

mutual

def valRefs : GVal → List Nat
  | GVal.vptr a => [a]
  | GVal.vslice isNil a => if isNil then [] else [a]
  | GVal.vmap a => [a]
  | GVal.viface v => valRefs v
  | GVal.vstruct fs => fieldsRefs fs
  | GVal.varr es => elemsRefs es
  | _ => []

def fieldsRefs : List (fieldInfo × GVal) → List Nat
  | [] => []
  | (_, v) :: t => valRefs v ++ fieldsRefs t

def elemsRefs : List GVal → List Nat
  | [] => []
  | v :: t => valRefs v ++ elemsRefs t

end

def entriesRefs : List (GKey × GVal) → List Nat
  | [] => []
  | (_, v) :: t => valRefs v ++ entriesRefs t

def nodeRefs : HNode → List Nat
  | HNode.nPtr v => valRefs v
  | HNode.nSlice es => elemsRefs es
  | HNode.nMap kvs => entriesRefs kvs

/-- Addresses referenced from the cell at address `a`. -/
def heapStep (heap : Heap) (a : Nat) : List Nat :=
  match heapGet heap a with
  | some n => nodeRefs n
  | none => []

/-- All addresses reachable from `src` in at most `k` reference steps. -/
def reachList (heap : Heap) : Nat → List Nat → List Nat
  | 0, src => src
  | k + 1, src => src ++ reachList heap k ((src.map (heapStep heap)).flatten)

/-- The reference graph of `root` over `heap` contains a cycle reachable
from the root: some reachable address can reach itself in at least one step.
(`heap.length` steps saturate reachability over a heap with that many cells.) -/
def hasCycleReachableFrom (heap : Heap) (root : GVal) : Bool :=
  (reachList heap heap.length (valRefs root)).any
    (fun a => (reachList heap heap.length (heapStep heap a)).contains a)

mutual

/-- Structural size of a value: the depth budget its inline part needs. -/
def gsize : GVal → Nat
  | GVal.viface v => 1 + gsize v
  | GVal.vstruct fs => 1 + fieldsSize fs
  | GVal.varr es => 1 + elemsSize es
  | _ => 1

def fieldsSize : List (fieldInfo × GVal) → Nat
  | [] => 0
  | (_, v) :: t => 1 + gsize v + fieldsSize t

def elemsSize : List GVal → Nat
  | [] => 0
  | v :: t => 1 + gsize v + elemsSize t

end

def entriesSize : List (GKey × GVal) → Nat
  | [] => 0
  | (_, v) :: t => 1 + gsize v + entriesSize t

def nodeSize : HNode → Nat
  | HNode.nPtr v => 1 + gsize v
  | HNode.nSlice es => 1 + elemsSize es
  | HNode.nMap kvs => 1 + entriesSize kvs

/-- Remaining heap budget: the cost of every cell whose address the
current call's visited map has not yet claimed. -/
def heapBudget (heap : Heap) (ptrs : List (Nat × String)) : Nat :=
  match heap with
  | [] => 0
  | (a, n) :: rest =>
      (if (List.lookup a ptrs).isSome then 0 else 1 + nodeSize n) + heapBudget rest ptrs

/-!
## The field-metadata cache (`fieldCache`, part_001 lines 49-265)

`κ` stands for `reflect.Type` (the cache key), `ε` for the cached
`[]fieldInfo` slice; `resolve` stands for `parseFields` (which, in the
source, never returns a non-nil error: its `err` variable is only written
inside a deferred closure that cannot reach the already-bound return
values).  The `evictList` (front = most recently used, back = least) and the
`cache` map are kept in lock-step by the source, so a single association
list models both; `maxSize` is a Go `int` and may be non-positive.
The concurrency apparatus (RWMutex, double-check on write, the asynchronous
`MoveToFront` goroutine) collapses in this sequential model to performing
the promotion in place; none of it changes the entry set or sizes.
Statistics counters are represented by the returned hit/miss Bool.
-/

/-- `fieldCache` (part_001 lines 50-61). -/
structure fieldCache (κ ε : Type) where
  evictList : List (κ × ε)
  maxSize : Int

/-- `newFieldCache` (part_001 lines 74-81) with the given capacity constant. -/
def newFieldCache (κ ε : Type) (defaultMaxSize : Int) : fieldCache κ ε :=
  ⟨[], defaultMaxSize⟩

/-- `evict` (part_001 lines 227-265): drop the least-recently-used entry
(the back of the list) and its map key.  The structural-inconsistency error
paths cannot arise in the single-list model. -/
def fieldCache.evict {κ ε : Type} (c : fieldCache κ ε) : fieldCache κ ε :=
  { c with evictList := c.evictList.dropLast }

/-- The eviction loop of `SetMaxSize` (part_001 line 115):
`for Len() > maxSize && maxSize > 0 { evict }`. -/
def evictLoopGt {κ ε : Type} (entries : List (κ × ε)) (maxSize : Int) : List (κ × ε) :=
  if (entries.length : Int) > maxSize ∧ maxSize > 0 then
    evictLoopGt entries.dropLast maxSize
  else entries
termination_by entries.length
decreasing_by
  simp only [List.length_dropLast]
  omega

/-- `SetMaxSize` (part_001 lines 109-121): store the new capacity, then
synchronously evict while over it (when it is positive). -/
def fieldCache.SetMaxSize {κ ε : Type} (c : fieldCache κ ε) (size : Int) : fieldCache κ ε :=
  { evictList := evictLoopGt c.evictList size, maxSize := size }

/-- The pre-insert eviction loop of `getFieldsInfo` (part_001 line 205):
`for Len() >= maxSize && Len() > 0 { evict }`. -/
def evictLoopGe {κ ε : Type} (entries : List (κ × ε)) (maxSize : Int) : List (κ × ε) :=
  if (entries.length : Int) ≥ maxSize ∧ entries.length > 0 then
    evictLoopGe entries.dropLast maxSize
  else entries
termination_by entries.length
decreasing_by
  simp only [List.length_dropLast]
  omega

/-- `list.MoveToFront` on a hit (part_001 line 173): promote the entry. -/
def moveToFront {κ ε : Type} [DecidableEq κ] (entries : List (κ × ε)) (t : κ) :
    List (κ × ε) :=
  match entries.lookup t with
  | none => entries
  | some e => (t, e) :: (entries.eraseP (fun p => p.1 == t))

/-- `getFieldsInfo` (part_001 lines 155-224): look the type up; on a hit
return the stored entry (promoted); on a miss resolve, evict down when the
capacity is positive, and push the new entry to the front.  Returns
(result, new cache state, wasHit). -/
def fieldCache.getFieldsInfo {κ ε : Type} [DecidableEq κ] (c : fieldCache κ ε)
    (t : κ) (resolve : κ → ε) : ε × fieldCache κ ε × Bool :=
  match c.evictList.lookup t with
  | some entry =>
      (entry, { c with evictList := moveToFront c.evictList t }, true)
  | none =>
      let fields := resolve t
      let entries :=
        if c.maxSize > 0 then evictLoopGe c.evictList c.maxSize else c.evictList
      (fields, { c with evictList := (t, fields) :: entries }, false)

/-!
## Concrete inputs used by the claim theorems

`optsBase` is the configuration the source's `DefaultOptions()` produces
per the spec and changelog (OR mode, no wrap key, tag key `groups`, omit
empty, suppress nil pointers, depth limit 32, cycle check on); the claim
theorems that quantify over options vary the relevant fields explicitly.
-/

def optsBase : Options :=
  ⟨GroupMode.modeOr, "", "groups", false, true, 32, false⟩

/-- The backing store of the Go value `[]*int{nil}`. -/
def c2heap : Heap := [(1, HNode.nSlice [GVal.vnilPtr])]

/-- `struct { A []*int; B int }{ A: []*int{nil}, B: 7 }` resolved for
traversal (no tags beyond the json names). -/
def c2structVal : GVal :=
  GVal.vstruct
    [(⟨"A", "a", [], false, false, false⟩, GVal.vslice false 1),
     (⟨"B", "b", [], false, false, false⟩, GVal.vint 7)]

/-- The backing store of a Go value `map[string]*int{"k": nil}`. -/
def c2mapHeap : Heap := [(1, HNode.nMap [(GKey.ks "k", GVal.vnilPtr)])]

/-- Two distinct empty-slice backing stores. -/
def c8heap : Heap := [(1, HNode.nSlice []), (2, HNode.nSlice [])]

/-- `struct { A []string `json:"a,omitzero"`; B []string `json:"b,omitempty"` }`
with both fields holding empty (non-nil) slices. -/
def c8val : GVal :=
  GVal.vstruct
    [(⟨"A", "a", [], false, true, false⟩, GVal.vslice false 1),
     (⟨"B", "b", [], true, false, false⟩, GVal.vslice false 2)]

/-- Heap for the C9 instance: a struct field `f **int`-like chain
`f → ptr 1 → ptr 2 → 3`. -/
def c9heap : Heap := [(1, HNode.nPtr (GVal.vptr 2)), (2, HNode.nPtr (GVal.vint 3))]

def c9structVal : GVal :=
  GVal.vstruct [(⟨"f", "f", [], false, false, false⟩, GVal.vptr 1)]

/-- A self-referential node: address 1 holds `struct{ Next *Node }` whose
`Next` (group `public`) points back at address 1. -/
def cycHeap : Heap :=
  [(1, HNode.nPtr (GVal.vstruct
      [(⟨"Next", "next", ["public"], false, false, false⟩, GVal.vptr 1)]))]

/-- The same self-referential shape, but `Next` is tagged with group
`links` only, so a request for group `base` filters the field away. -/
def cycHeapFiltered : Heap :=
  [(1, HNode.nPtr (GVal.vstruct
      [(⟨"Next", "next", ["links"], false, false, false⟩, GVal.vptr 1)]))]

/-- Shared, acyclic: two sibling fields point at the same address. -/
def dagHeap : Heap := [(1, HNode.nPtr (GVal.vint 5))]

def dagVal : GVal :=
  GVal.vstruct
    [(⟨"A", "a", [], false, false, false⟩, GVal.vptr 1),
     (⟨"B", "b", [], false, false, false⟩, GVal.vptr 1)]

/-- A linear pointer chain: address `j` points at address `j - 1` for
`j = L, …, 2`, and address `1` holds the given terminal cell; the chain's
root is `vptr L`.  Traversing it passes through `L` pointer levels. -/
def chainHeap : Nat → HNode → Heap
  | 0, _ => []
  | 1, tail => [(1, tail)]
  | L + 2, tail => (L + 2, HNode.nPtr (GVal.vptr (L + 1))) :: chainHeap (L + 1) tail

/-- A chain of `L` pointers ending in the scalar `7`. -/
def scalarChainHeap (L : Nat) : Heap := chainHeap L (HNode.nPtr (GVal.vint 7))

/-- A chain of `L` pointers ending in an empty (non-nil) slice stored at
address 0: nesting of length `L + 1` whose deepest level is empty. -/
def emptyTailChainHeap (L : Nat) : Heap :=
  (0, HNode.nSlice []) :: chainHeap L (HNode.nPtr (GVal.vslice false 0))

/-- A chain of `L` pointers ending in an empty array: nesting of length
`L + 1` whose deepest level is an empty sequence of Array kind (which,
unlike a slice, holds its elements inline and is not exempt from the
depth-limit error). -/
def emptyArrayTailChainHeap (L : Nat) : Heap :=
  chainHeap L (HNode.nPtr (GVal.varr []))

/-- `optsBase` with the given depth limit. -/
def optsDepth (d : Nat) : Options :=
  ⟨GroupMode.modeOr, "", "groups", false, true, d, false⟩

/-!
## Theorems

First a stock of small lemmas about the context operations, association-list
lookup and the traversal budget; then, per claim, its theorem (with witness
or counterexample where called for).
-/

theorem withPath_pointers (ctx : serializeContext) (s : String) :
    (ctx.withPath s).pointers = ctx.pointers := rfl

theorem withPath_opts (ctx : serializeContext) (s : String) :
    (ctx.withPath s).opts = ctx.opts := rfl

theorem enterLevel_ok_eq {ctx ctx1 : serializeContext}
    (h : ctx.enterLevel = Except.ok ctx1) :
    ctx1 = { ctx with depth := ctx.depth + 1 } := by
  unfold serializeContext.enterLevel at h
  split at h
  · exact absurd h (by simp)
  · simpa using h.symm

theorem checkAddr_ok_extend {ctx : serializeContext} {a : Nat}
    {p : List (Nat × String)} (h : checkAddr ctx a = Except.ok p) :
    p = [(a, ctx.path)] ++ ctx.pointers := by
  unfold checkAddr at h
  split at h
  · exact absurd h (by simp)
  · simpa using h.symm

theorem checkPointer_ok_extend {ctx : serializeContext} {heap : Heap} {v : GVal}
    {p : List (Nat × String)} (h : checkPointer ctx heap v = Except.ok p) :
    ∃ pre, p = pre ++ ctx.pointers := by
  unfold checkPointer at h
  split at h
  · exact ⟨[], by simpa using h.symm⟩
  · split at h
    · exact ⟨_, checkAddr_ok_extend h⟩
    · split at h
      · exact ⟨[], by simpa using h.symm⟩
      · split at h
        · exact ⟨[], by simpa using h.symm⟩
        · exact ⟨_, checkAddr_ok_extend h⟩
    · split at h
      · exact ⟨[], by simpa using h.symm⟩
      · exact ⟨_, checkAddr_ok_extend h⟩
    · exact ⟨[], by simpa using h.symm⟩

theorem lookup_append_isSome {α β : Type} [BEq α] {l : List (α × β)}
    (pre : List (α × β)) {a : α} (h : (List.lookup a l).isSome) :
    (List.lookup a (pre ++ l)).isSome := by
  induction pre with
  | nil => simpa using h
  | cons x t ih =>
      rcases x with ⟨k, v⟩
      by_cases hk : a == k
      · simp [List.lookup, hk]
      · simpa [List.lookup, hk] using ih

theorem heapBudget_mono {heap : Heap} {ptrs ptrs' : List (Nat × String)}
    (h : ∀ a, (List.lookup a ptrs).isSome → (List.lookup a ptrs').isSome) :
    heapBudget heap ptrs' ≤ heapBudget heap ptrs := by
  induction heap with
  | nil => simp [heapBudget]
  | cons x rest ih =>
      rcases x with ⟨a, n⟩
      unfold heapBudget
      by_cases ha : (List.lookup a ptrs).isSome
      · rw [if_pos ha, if_pos (h a ha)]
        omega
      · rw [if_neg ha]
        by_cases ha' : (List.lookup a ptrs').isSome
        · rw [if_pos ha']
          omega
        · rw [if_neg ha']
          omega

theorem heapBudget_append (heap : Heap) (pre ptrs : List (Nat × String)) :
    heapBudget heap (pre ++ ptrs) ≤ heapBudget heap ptrs :=
  heapBudget_mono (fun _ h => lookup_append_isSome pre h)

theorem heapBudget_claim {heap : Heap} {ptrs : List (Nat × String)} {a : Nat}
    {n : HNode} (s : String) (hga : heapGet heap a = some n)
    (hna : (List.lookup a ptrs).isSome = false) :
    1 + nodeSize n + heapBudget heap ((a, s) :: ptrs) ≤ heapBudget heap ptrs := by
  induction heap with
  | nil => simp [heapGet, List.lookup] at hga
  | cons x rest ih =>
      rcases x with ⟨b, m⟩
      by_cases hab : a = b
      · subst hab
        have hm : m = n := by simpa [heapGet, List.lookup] using hga
        subst hm
        have hrest : heapBudget rest ((a, s) :: ptrs) ≤ heapBudget rest ptrs :=
          heapBudget_mono (fun x hx => lookup_append_isSome [(a, s)] hx)
        have hL : (List.lookup a ((a, s) :: ptrs)).isSome := by simp [List.lookup]
        unfold heapBudget
        rw [if_pos hL, if_neg (by simp [hna] : ¬ (List.lookup a ptrs).isSome)]
        omega
      · have hba : (a == b) = false := by simp [hab]
        have hga' : heapGet rest a = some n := by
          simpa [heapGet, List.lookup, hba] using hga
        have hmain := ih hga'
        have hbb : (b == a) = false := by simp [Ne.symm hab]
        have hsame : List.lookup b ((a, s) :: ptrs) = List.lookup b ptrs := by
          simp [List.lookup, hbb]
        unfold heapBudget
        rw [hsame]
        omega

theorem extend_trans {p q r : List (Nat × String)}
    (h1 : ∃ pre, q = pre ++ p) (h2 : ∃ pre, r = pre ++ q) :
    ∃ pre, r = pre ++ p := by
  obtain ⟨x, hx⟩ := h1
  obtain ⟨y, hy⟩ := h2
  exact ⟨y ++ x, by simp [hy, hx]⟩

theorem extend_refl (p : List (Nat × String)) : ∃ pre, p = pre ++ p :=
  ⟨[], rfl⟩

/-- Within one call, the visited-pointer map only ever grows: every
traversal function returns an extension of the map it was given. -/
theorem traversal_extend (fuel : Nat) :
    (∀ heap ctx v groups mode r ps,
        valueToMap fuel heap ctx v groups mode = some (r, ps) →
        ∃ pre, ps = pre ++ ctx.pointers) ∧
    (∀ heap ctx fields groups mode acc r ps,
        structFields fuel heap ctx fields groups mode acc = some (r, ps) →
        ∃ pre, ps = pre ++ ctx.pointers) ∧
    (∀ heap ctx entries groups mode acc r ps,
        mapEntries fuel heap ctx entries groups mode acc = some (r, ps) →
        ∃ pre, ps = pre ++ ctx.pointers) ∧
    (∀ heap ctx i elems groups mode acc r ps,
        sliceElems fuel heap ctx i elems groups mode acc = some (r, ps) →
        ∃ pre, ps = pre ++ ctx.pointers) := by
  induction fuel with
  | zero =>
      refine ⟨?_, ?_, ?_, ?_⟩ <;> intro heap ctx <;> intros <;>
        simp_all [valueToMap, structFields, mapEntries, sliceElems]
  | succ fuel ih =>
      obtain ⟨ihV, ihS, ihM, ihE⟩ := ih
      refine ⟨?_, ?_, ?_, ?_⟩
      · -- valueToMap
        intro heap ctx v groups mode r ps h
        have hok : ∀ (X : Except GoErr IR) (P : List (Nat × String)),
            (some (X, P) : Option (Except GoErr IR × List (Nat × String))) = some (r, ps) →
            P = ps := by
          intro X P hXP
          simpa using congrArg (fun o => Option.map Prod.snd o) hXP
        cases v <;> simp only [valueToMap] at h
        case vstr s =>
          split at h <;> exact ⟨[], (hok _ _ h).symm ▸ rfl⟩
        case vbool x => exact ⟨[], (hok _ _ h).symm ▸ rfl⟩
        case vint n => exact ⟨[], (hok _ _ h).symm ▸ rfl⟩
        case vnilPtr =>
          split at h <;> exact ⟨[], (hok _ _ h).symm ▸ rfl⟩
        case vnilIface => exact ⟨[], (hok _ _ h).symm ▸ rfl⟩
        case vtime z =>
          split at h
          · exact ⟨[], (hok _ _ h).symm ▸ rfl⟩
          · rename_i ctx1 heq
            have hp1 : ctx1.pointers = ctx.pointers := by rw [enterLevel_ok_eq heq]
            split at h <;>
              exact ⟨[], by rw [← hok _ _ h]; simp [hp1]⟩
        case vptr a =>
          split at h
          · exact ⟨[], (hok _ _ h).symm ▸ rfl⟩
          · rename_i ctx1 heq
            have hp1 : ctx1.pointers = ctx.pointers := by rw [enterLevel_ok_eq heq]
            split at h
            · rename_i e heq2
              exact ⟨[], by rw [← hok _ _ h]; simp [hp1]⟩
            · rename_i ptrs1 heq2
              have hx1 : ∃ pre, ptrs1 = pre ++ ctx.pointers := by
                have := checkPointer_ok_extend heq2
                rwa [hp1] at this
              split at h
              · rename_i w heq3
                exact extend_trans hx1 (ihV _ _ _ _ _ _ _ h)
              · exact extend_trans hx1 ⟨[], (hok _ _ h).symm ▸ rfl⟩
        case viface w =>
          split at h
          · exact ⟨[], (hok _ _ h).symm ▸ rfl⟩
          · rename_i ctx1 heq
            have hp1 : ctx1.pointers = ctx.pointers := by rw [enterLevel_ok_eq heq]
            have := ihV _ _ _ _ _ _ _ h
            simp only [serializeContext.withPath] at this
            rw [hp1] at this
            exact this
        case vstruct fs =>
          split at h
          · exact ⟨[], (hok _ _ h).symm ▸ rfl⟩
          · rename_i ctx1 heq
            have hp1 : ctx1.pointers = ctx.pointers := by rw [enterLevel_ok_eq heq]
            have := ihS _ _ _ _ _ _ _ _ h
            rw [hp1] at this
            exact this
        case vmap a =>
          split at h
          · split at h
            · split at h <;> exact ⟨[], (hok _ _ h).symm ▸ rfl⟩
            · exact ⟨[], (hok _ _ h).symm ▸ rfl⟩
          · rename_i ctx1 heq
            have hp1 : ctx1.pointers = ctx.pointers := by rw [enterLevel_ok_eq heq]
            split at h
            · rename_i e heq2
              exact ⟨[], by rw [← hok _ _ h]; simp [hp1]⟩
            · rename_i ptrs1 heq2
              have hx1 : ∃ pre, ptrs1 = pre ++ ctx.pointers := by
                have := checkPointer_ok_extend heq2
                rwa [hp1] at this
              split at h
              · exact extend_trans hx1 ⟨[], (hok _ _ h).symm ▸ rfl⟩
              · split at h
                · rename_i kvs heq3
                  exact extend_trans hx1 (ihM _ _ _ _ _ _ _ _ h)
                · exact extend_trans hx1 ⟨[], (hok _ _ h).symm ▸ rfl⟩
        case vslice isNil a =>
          split at h
          · split at h
            · split at h <;> exact ⟨[], (hok _ _ h).symm ▸ rfl⟩
            · exact ⟨[], (hok _ _ h).symm ▸ rfl⟩
          · rename_i ctx1 heq
            have hp1 : ctx1.pointers = ctx.pointers := by rw [enterLevel_ok_eq heq]
            split at h
            · rename_i e heq2
              exact ⟨[], by rw [← hok _ _ h]; simp [hp1]⟩
            · rename_i ptrs1 heq2
              have hx1 : ∃ pre, ptrs1 = pre ++ ctx.pointers := by
                have := checkPointer_ok_extend heq2
                rwa [hp1] at this
              split at h
              · split at h
                · split at h <;> exact extend_trans hx1 ⟨[], (hok _ _ h).symm ▸ rfl⟩
                · exact extend_trans hx1 ⟨[], (hok _ _ h).symm ▸ rfl⟩
              · split at h
                · rename_i es heq3
                  exact extend_trans hx1 (ihE _ _ _ _ _ _ _ _ _ h)
                · exact extend_trans hx1 ⟨[], (hok _ _ h).symm ▸ rfl⟩
        case varr es =>
          split at h
          · exact ⟨[], (hok _ _ h).symm ▸ rfl⟩
          · rename_i ctx1 heq
            have hp1 : ctx1.pointers = ctx.pointers := by rw [enterLevel_ok_eq heq]
            split at h
            · split at h <;> exact ⟨[], by rw [← hok _ _ h]; simp [hp1]⟩
            · have := ihE _ _ _ _ _ _ _ _ _ h
              rw [hp1] at this
              exact this
      · -- structFields
        intro heap ctx fields groups mode acc r ps h
        have hok : ∀ (X : Except GoErr IR) (P : List (Nat × String)),
            (some (X, P) : Option (Except GoErr IR × List (Nat × String))) = some (r, ps) →
            P = ps := by
          intro X P hXP
          simpa using congrArg (fun o => Option.map Prod.snd o) hXP
        cases fields with
        | nil =>
            simp only [structFields] at h
            exact ⟨[], (hok _ _ h).symm ▸ rfl⟩
        | cons fp rest =>
          rcases fp with ⟨field, fv⟩
          simp only [structFields] at h
          split at h
          · exact ihS _ _ _ _ _ _ _ _ h
          · split at h
            · -- embedded anonymous branch
              split at h
              · rename_i efs
                split at h
                · exact Option.noConfusion h
                · rename_i e ptrs' heq
                  have hx1 : ∃ pre, ptrs' = pre ++ ctx.pointers := by
                    simpa [serializeContext.withPath] using ihS _ _ _ _ _ _ _ _ heq
                  exact extend_trans hx1 ⟨[], (hok _ _ h).symm ▸ rfl⟩
                · rename_i ir ptrs' heq
                  have hx1 : ∃ pre, ptrs' = pre ++ ctx.pointers := by
                    simpa [serializeContext.withPath] using ihS _ _ _ _ _ _ _ _ heq
                  split at h <;> exact extend_trans hx1 (ihS _ _ _ _ _ _ _ _ h)
              · exact ihS _ _ _ _ _ _ _ _ h
            · split at h
              · exact ihS _ _ _ _ _ _ _ _ h
              · split at h
                · exact ihS _ _ _ _ _ _ _ _ h
                · split at h
                  · exact ihS _ _ _ _ _ _ _ _ h
                  · split at h
                    · exact Option.noConfusion h
                    · rename_i e ptrs' heq
                      have hx1 : ∃ pre, ptrs' = pre ++ ctx.pointers := by
                        simpa [serializeContext.withPath] using ihV _ _ _ _ _ _ _ heq
                      split at h
                      · exact extend_trans hx1 (ihS _ _ _ _ _ _ _ _ h)
                      · exact extend_trans hx1 ⟨[], (hok _ _ h).symm ▸ rfl⟩
                    · rename_i ir ptrs' heq
                      have hx1 : ∃ pre, ptrs' = pre ++ ctx.pointers := by
                        simpa [serializeContext.withPath] using ihV _ _ _ _ _ _ _ heq
                      split at h
                      · exact extend_trans hx1 (ihS _ _ _ _ _ _ _ _ h)
                      · split at h <;> exact extend_trans hx1 (ihS _ _ _ _ _ _ _ _ h)
      · -- mapEntries
        intro heap ctx entries groups mode acc r ps h
        have hok : ∀ (X : Except GoErr IR) (P : List (Nat × String)),
            (some (X, P) : Option (Except GoErr IR × List (Nat × String))) = some (r, ps) →
            P = ps := by
          intro X P hXP
          simpa using congrArg (fun o => Option.map Prod.snd o) hXP
        cases entries with
        | nil =>
            simp only [mapEntries] at h
            exact ⟨[], (hok _ _ h).symm ▸ rfl⟩
        | cons kv rest =>
          rcases kv with ⟨k, mv⟩
          simp only [mapEntries] at h
          split at h
          · exact Option.noConfusion h
          · rename_i e ptrs' heq
            have hx1 : ∃ pre, ptrs' = pre ++ ctx.pointers := by
              simpa [serializeContext.withPath] using ihV _ _ _ _ _ _ _ heq
            exact extend_trans hx1 ⟨[], (hok _ _ h).symm ▸ rfl⟩
          · rename_i ir ptrs' heq
            have hx1 : ∃ pre, ptrs' = pre ++ ctx.pointers := by
              simpa [serializeContext.withPath] using ihV _ _ _ _ _ _ _ heq
            split at h <;> exact extend_trans hx1 (ihM _ _ _ _ _ _ _ _ h)
      · -- sliceElems
        intro heap ctx i elems groups mode acc r ps h
        have hok : ∀ (X : Except GoErr IR) (P : List (Nat × String)),
            (some (X, P) : Option (Except GoErr IR × List (Nat × String))) = some (r, ps) →
            P = ps := by
          intro X P hXP
          simpa using congrArg (fun o => Option.map Prod.snd o) hXP
        cases elems with
        | nil =>
            simp only [sliceElems] at h
            exact ⟨[], (hok _ _ h).symm ▸ rfl⟩
        | cons item rest =>
          simp only [sliceElems] at h
          split at h
          · exact Option.noConfusion h
          · rename_i e ptrs' heq
            have hx1 : ∃ pre, ptrs' = pre ++ ctx.pointers := by
              simpa [serializeContext.withPath] using ihV _ _ _ _ _ _ _ heq
            exact extend_trans hx1 ⟨[], (hok _ _ h).symm ▸ rfl⟩
          · rename_i ir ptrs' heq
            have hx1 : ∃ pre, ptrs' = pre ++ ctx.pointers := by
              simpa [serializeContext.withPath] using ihV _ _ _ _ _ _ _ heq
            split at h <;> exact extend_trans hx1 (ihE _ _ _ _ _ _ _ _ _ h)

theorem checkAddr_ok_shape {ctx : serializeContext} {a : Nat}
    {p : List (Nat × String)} (h : checkAddr ctx a = Except.ok p) :
    (List.lookup a ctx.pointers).isSome = false ∧ p = (a, ctx.path) :: ctx.pointers := by
  unfold checkAddr at h
  split at h
  · exact absurd h (by simp)
  · rename_i hns
    rw [Bool.not_eq_true] at hns
    exact ⟨hns, by simpa using h.symm⟩

theorem checkPointer_ok_ptr {ctx : serializeContext} {heap : Heap} {a : Nat}
    {p : List (Nat × String)} (hdis : ctx.opts.disableCircularCheck = false)
    (h : checkPointer ctx heap (GVal.vptr a) = Except.ok p) :
    (List.lookup a ctx.pointers).isSome = false ∧ p = (a, ctx.path) :: ctx.pointers := by
  unfold checkPointer at h
  rw [if_neg (by simp [hdis])] at h
  exact checkAddr_ok_shape h

theorem checkPointer_ok_slice {ctx : serializeContext} {heap : Heap} {isNil : Bool}
    {a : Nat} {p : List (Nat × String)} (hdis : ctx.opts.disableCircularCheck = false)
    (hlen : gvalLen heap (GVal.vslice isNil a) ≠ 0)
    (h : checkPointer ctx heap (GVal.vslice isNil a) = Except.ok p) :
    (List.lookup a ctx.pointers).isSome = false ∧ p = (a, ctx.path) :: ctx.pointers := by
  have hnil : isNil = false := by
    cases isNil
    · rfl
    · exact absurd (by simp [gvalLen]) hlen
  subst hnil
  unfold checkPointer at h
  rw [if_neg (by simp [hdis])] at h
  change (if gvalLen heap (GVal.vslice false a) = 0 then Except.ok ctx.pointers
          else if (false : Bool) = true then Except.ok ctx.pointers
          else checkAddr ctx a) = Except.ok p at h
  rw [if_neg hlen, if_neg (by simp)] at h
  exact checkAddr_ok_shape h

theorem checkPointer_ok_map {ctx : serializeContext} {heap : Heap}
    {a : Nat} {p : List (Nat × String)} (hdis : ctx.opts.disableCircularCheck = false)
    (hlen : gvalLen heap (GVal.vmap a) ≠ 0)
    (h : checkPointer ctx heap (GVal.vmap a) = Except.ok p) :
    (List.lookup a ctx.pointers).isSome = false ∧ p = (a, ctx.path) :: ctx.pointers := by
  unfold checkPointer at h
  rw [if_neg (by simp [hdis])] at h
  change (if gvalLen heap (GVal.vmap a) = 0 then Except.ok ctx.pointers
          else checkAddr ctx a) = Except.ok p at h
  rw [if_neg hlen] at h
  exact checkAddr_ok_shape h

theorem gsize_pos (v : GVal) : 1 ≤ gsize v := by
  cases v <;> simp [gsize]

/-- With cycle checking enabled, fuel beyond the traversal budget is never
exhausted: the budget strictly bounds the call depth because every
recursive step either descends the value structurally or permanently claims
an unvisited heap address. -/
theorem traversal_adequate (fuel : Nat) :
    (∀ heap ctx v groups mode,
        ctx.opts.disableCircularCheck = false →
        gsize v + heapBudget heap ctx.pointers < fuel →
        valueToMap fuel heap ctx v groups mode ≠ none) ∧
    (∀ heap ctx fields groups mode acc,
        ctx.opts.disableCircularCheck = false →
        fieldsSize fields + heapBudget heap ctx.pointers < fuel →
        structFields fuel heap ctx fields groups mode acc ≠ none) ∧
    (∀ heap ctx entries groups mode acc,
        ctx.opts.disableCircularCheck = false →
        entriesSize entries + heapBudget heap ctx.pointers < fuel →
        mapEntries fuel heap ctx entries groups mode acc ≠ none) ∧
    (∀ heap ctx i elems groups mode acc,
        ctx.opts.disableCircularCheck = false →
        elemsSize elems + heapBudget heap ctx.pointers < fuel →
        sliceElems fuel heap ctx i elems groups mode acc ≠ none) := by
  induction fuel with
  | zero =>
      refine ⟨?_, ?_, ?_, ?_⟩ <;> intro heap ctx <;> intros <;> omega
  | succ fuel ih =>
      obtain ⟨ihV, ihS, ihM, ihE⟩ := ih
      refine ⟨?_, ?_, ?_, ?_⟩
      · -- valueToMap
        intro heap ctx v groups mode hdis hbud
        cases v <;> simp only [valueToMap]
        case vstr s => split <;> simp
        case vbool x => simp
        case vint n => simp
        case vnilPtr => split <;> simp
        case vnilIface => simp
        case vtime z =>
          split
          · simp
          · split <;> simp
        case vptr a =>
          split
          · simp
          · rename_i ctx1 heq
            have hctx1 := enterLevel_ok_eq heq
            subst hctx1
            split
            · simp
            · rename_i ptrs1 heq2
              split
              · rename_i w heq3
                have hshape := checkPointer_ok_ptr (by simpa using hdis) heq2
                simp only at hshape
                apply ihV
                · simpa [serializeContext.withPath] using hdis
                · have hclaim := heapBudget_claim ctx.path heq3 hshape.1
                  simp only [nodeSize] at hclaim
                  simp only [gsize] at hbud
                  simp only [serializeContext.withPath, hshape.2]
                  omega
              · simp
        case viface w =>
          split
          · simp
          · rename_i ctx1 heq
            have hctx1 := enterLevel_ok_eq heq
            subst hctx1
            apply ihV
            · simpa [serializeContext.withPath] using hdis
            · simp only [gsize] at hbud
              simp only [serializeContext.withPath]
              omega
        case vstruct fs =>
          split
          · simp
          · rename_i ctx1 heq
            have hctx1 := enterLevel_ok_eq heq
            subst hctx1
            apply ihS
            · simpa using hdis
            · simp only [gsize] at hbud
              simp only
              omega
        case vmap a =>
          split
          · split
            · split <;> simp
            · simp
          · rename_i ctx1 heq
            have hctx1 := enterLevel_ok_eq heq
            subst hctx1
            split
            · simp
            · rename_i ptrs1 heq2
              split
              · simp
              · rename_i hne
                split
                · rename_i kvs heq3
                  by_cases hlen : gvalLen heap (GVal.vmap a) = 0
                  · have hkvs : kvs = [] := by
                      simp [gvalLen, heq3] at hlen
                      simpa using hlen
                    subst hkvs
                    obtain ⟨pre, hpre⟩ := checkPointer_ok_extend heq2
                    simp only at hpre
                    have hmono := heapBudget_append heap pre ctx.pointers
                    apply ihM
                    · simpa using hdis
                    · simp only [gsize] at hbud
                      simp only [entriesSize, hpre]
                      omega
                  · have hshape := checkPointer_ok_map (by simpa using hdis) hlen heq2
                    simp only at hshape
                    apply ihM
                    · simpa using hdis
                    · have hclaim := heapBudget_claim ctx.path heq3 hshape.1
                      simp only [nodeSize] at hclaim
                      simp only [gsize] at hbud
                      simp only [hshape.2]
                      omega
                · simp
        case vslice isNil a =>
          split
          · split
            · split <;> simp
            · simp
          · rename_i ctx1 heq
            have hctx1 := enterLevel_ok_eq heq
            subst hctx1
            split
            · simp
            · rename_i ptrs1 heq2
              split
              · split
                · split <;> simp
                · simp
              · rename_i hlen
                split
                · rename_i es heq3
                  have hshape := checkPointer_ok_slice (by simpa using hdis) (by simpa using hlen) heq2
                  simp only at hshape
                  apply ihE
                  · simpa using hdis
                  · have hclaim := heapBudget_claim ctx.path heq3 hshape.1
                    simp only [nodeSize] at hclaim
                    simp only [gsize] at hbud
                    simp only [hshape.2]
                    omega
                · simp
        case varr es =>
          split
          · simp
          · rename_i ctx1 heq
            have hctx1 := enterLevel_ok_eq heq
            subst hctx1
            split
            · split <;> simp
            · apply ihE
              · simpa using hdis
              · simp only [gsize] at hbud
                simp only
                omega
      · -- structFields
        intro heap ctx fields groups mode acc hdis hbud
        cases fields with
        | nil => simp [structFields]
        | cons fp rest =>
          rcases fp with ⟨field, fv⟩
          simp only [fieldsSize] at hbud
          have hfpos := gsize_pos fv
          simp only [structFields]
          split
          · apply ihS _ _ _ _ _ _ hdis
            omega
          · split
            · split
              · rename_i efs
                simp only [gsize] at hbud
                split
                · rename_i heq2
                  refine absurd heq2 (ihS _ _ _ _ _ _ ?_ ?_)
                  · simpa [serializeContext.withPath] using hdis
                  · simp only [serializeContext.withPath]
                    omega
                · simp
                · rename_i ir ptrs' heq2
                  obtain ⟨pre, hpre⟩ :=
                    (by simpa [serializeContext.withPath] using
                      (traversal_extend fuel).2.1 _ _ _ _ _ _ _ _ heq2 :
                      ∃ pre, ptrs' = pre ++ ctx.pointers)
                  have hmono := heapBudget_append heap pre ctx.pointers
                  split <;>
                    (apply ihS _ _ _ _ _ _ (by simpa using hdis)
                     simp only [hpre]
                     omega)
              · apply ihS _ _ _ _ _ _ hdis
                omega
            · split
              · apply ihS _ _ _ _ _ _ hdis
                omega
              · split
                · apply ihS _ _ _ _ _ _ hdis
                  omega
                · split
                  · apply ihS _ _ _ _ _ _ hdis
                    omega
                  · split
                    · rename_i heq
                      refine absurd heq (ihV _ _ _ _ _ ?_ ?_)
                      · simpa [serializeContext.withPath] using hdis
                      · simp only [serializeContext.withPath]
                        omega
                    · rename_i e ptrs' heq
                      obtain ⟨pre, hpre⟩ :=
                        (by simpa [serializeContext.withPath] using
                          (traversal_extend fuel).1 _ _ _ _ _ _ _ heq :
                          ∃ pre, ptrs' = pre ++ ctx.pointers)
                      have hmono := heapBudget_append heap pre ctx.pointers
                      split
                      · apply ihS _ _ _ _ _ _ (by simpa using hdis)
                        simp only [hpre]
                        omega
                      · simp
                    · rename_i ir ptrs' heq
                      obtain ⟨pre, hpre⟩ :=
                        (by simpa [serializeContext.withPath] using
                          (traversal_extend fuel).1 _ _ _ _ _ _ _ heq :
                          ∃ pre, ptrs' = pre ++ ctx.pointers)
                      have hmono := heapBudget_append heap pre ctx.pointers
                      split
                      · apply ihS _ _ _ _ _ _ (by simpa using hdis)
                        simp only [hpre]
                        omega
                      · split <;>
                          (apply ihS _ _ _ _ _ _ (by simpa using hdis)
                           simp only [hpre]
                           omega)
      · -- mapEntries
        intro heap ctx entries groups mode acc hdis hbud
        cases entries with
        | nil => simp [mapEntries]
        | cons kv rest =>
          rcases kv with ⟨k, mv⟩
          simp only [entriesSize] at hbud
          have hfpos := gsize_pos mv
          simp only [mapEntries]
          split
          · rename_i heq
            refine absurd heq (ihV _ _ _ _ _ ?_ ?_)
            · simpa [serializeContext.withPath] using hdis
            · simp only [serializeContext.withPath]
              omega
          · simp
          · rename_i ir ptrs' heq
            obtain ⟨pre, hpre⟩ :=
              (by simpa [serializeContext.withPath] using
                (traversal_extend fuel).1 _ _ _ _ _ _ _ heq :
                ∃ pre, ptrs' = pre ++ ctx.pointers)
            have hmono := heapBudget_append heap pre ctx.pointers
            split <;>
              (apply ihM _ _ _ _ _ _ (by simpa using hdis)
               simp only [hpre]
               omega)
      · -- sliceElems
        intro heap ctx i elems groups mode acc hdis hbud
        cases elems with
        | nil => simp [sliceElems]
        | cons item rest =>
          simp only [elemsSize] at hbud
          have hfpos := gsize_pos item
          simp only [sliceElems]
          split
          · rename_i heq
            refine absurd heq (ihV _ _ _ _ _ ?_ ?_)
            · simpa [serializeContext.withPath] using hdis
            · simp only [serializeContext.withPath]
              omega
          · simp
          · rename_i ir ptrs' heq
            obtain ⟨pre, hpre⟩ :=
              (by simpa [serializeContext.withPath] using
                (traversal_extend fuel).1 _ _ _ _ _ _ _ heq :
                ∃ pre, ptrs' = pre ++ ctx.pointers)
            have hmono := heapBudget_append heap pre ctx.pointers
            split <;>
              (apply ihE _ _ _ _ _ _ _ (by simpa using hdis)
               simp only [hpre]
               omega)

/-- C5.  For every field group set, requested group list and mode, the group
filter includes the field iff the requested list is empty, or the field's
group set is non-empty and intersects the requested set (OR mode),
respectively contains every requested group (AND mode); in particular a
field with no groups is excluded whenever at least one group is requested,
in either mode. -/
theorem C5_group_filter (field : fieldInfo) (mode : GroupMode) (groups : List String) :
    shouldIncludeField field mode groups = true ↔
      (groups = [] ∨ (field.groups ≠ [] ∧
        match mode with
        | GroupMode.modeOr => ∃ g, g ∈ groups ∧ g ∈ field.groups
        | GroupMode.modeAnd => ∀ g, g ∈ groups → g ∈ field.groups)) := by
  unfold shouldIncludeField
  rcases groups with _ | ⟨g, gs⟩
  · simp
  · rcases hf : field.groups with _ | ⟨f, fsl⟩
    · simp [hf]
    · cases mode
      · simp [hf, List.any_eq_true, List.all_eq_true, List.elem_iff]
      · simp [hf, List.any_eq_true, List.all_eq_true, List.elem_iff]

/-- C8.  Under the default (non-null-if-empty) policy, an `omitzero`-tagged
empty slice field appears in the output as the empty sequence while an
`omitempty`-tagged empty slice field is absent; the zero predicate never
treats a slice as zero, while the emptiness predicate does treat a
length-zero slice as empty. -/
theorem C8_omitzero_vs_omitempty :
    valueToMap 10 c8heap (newContext optsBase) c8val [] GroupMode.modeOr
      = some (Except.ok (IR.obj [("a", IR.arr [])]), []) ∧
    (∀ (isNil : Bool) (a : Nat), isZeroValue (GVal.vslice isNil a) = false) ∧
    isEmptyValue c8heap (GVal.vslice false 1) = true ∧
    isEmptyValue c8heap (GVal.vslice false 2) = true :=
  ⟨rfl, fun _ _ => rfl, rfl, rfl⟩

/-- C9, counterexample.  The pointer-indirection step recurses with
`ctx.withPath("")`; at the non-empty path `"user"` this produces the path
`"user."` — a separator is appended, so the path after the indirection is
not identical to the path before it. -/
theorem C9_counterexample :
    (serializeContext.withPath ⟨"user", 0, [], optsBase⟩ "").path = "user." ∧
    "user." ≠ "user" :=
  ⟨rfl, by decide⟩

/-- C9, amended.  Dereferencing recurses into the pointee at the pointer's
path extended with an empty segment: the path is unchanged only when it was
empty (at the root); at any other position a trailing separator dot is
appended.  Concretely, a pointer chain reached through field `f` records the
outer pointer at `"f"` and the pointer one indirection deeper at `"f."`. -/
theorem C9_amended :
    (∀ ctx : serializeContext,
        (ctx.withPath "").path = if ctx.path = "" then ctx.path else ctx.path ++ ".") ∧
    valueToMap 10 c9heap (newContext optsBase) c9structVal [] GroupMode.modeOr
      = some (Except.ok (IR.obj [("f", IR.i 3)]), [(2, "f."), (1, "f")]) := by
  constructor
  · intro ctx
    unfold serializeContext.withPath
    by_cases h : ctx.path = "" <;> simp [h]
  · rfl

/-- C1 (the code slip, evaluated at the failing outcome).  When a panic
reaches the deferred recover of a public entry point, the handler converts
the payload to a typed error but then panics with it again, so the entry
point's outcome is still a panic — never a normal return carrying the typed
error, contrary to the claim (and to the source's own comment above the
handler). -/
theorem C1_panic_escape :
    @runWithRecover (List (String × IR)) marshalRecoverHandler
        (GoOutcome.panicked (PanicValue.pother "boom"))
      = GoOutcome.panicked (PanicValue.perr (GoErr.typed
          ⟨ErrType.reflectionFault, "反射操作错误", "Root", some "boom"⟩)) ∧
    @runWithRecover (List (String × IR)) marshalRecoverHandler
        (GoOutcome.panicked (PanicValue.perr (GoErr.simple "boom")))
      = GoOutcome.panicked (PanicValue.perr (GoErr.typed
          ⟨ErrType.unknown, "boom", "Root", some "boom"⟩)) :=
  ⟨rfl, rfl⟩

/-- C2, counterexample.  Marshalling the Go value `[]*int{nil}` under the
default options (nil-pointer suppression active) does not omit the nil
element: the `"skip_field"` drop signal escapes `sliceToSlice`, and the
entry point returns it to the caller wrapped as an unknown-kind typed
error. -/
theorem C2_counterexample :
    MarshalToMapWithOptions 10 c2heap (some (GVal.vslice false 1)) optsBase []
      = some (Except.error (GoErr.typed
          ⟨ErrType.unknown, "skip_field", "Root", some "skip_field"⟩)) :=
  rfl

/-- C2, amended.  Only struct-field processing intercepts the
`"skip_field"` drop signal: (1) a sequence element that recursively
resolves to drop aborts the element loop with the drop error instead of
being omitted, and (2) likewise a mapping value; (3) at an enclosing struct
field the error is caught and the whole field (not just the element) is
omitted, so traversal succeeds there; (4) with no enclosing struct field
the signal surfaces to the caller as an unknown-kind typed error. -/
theorem C2_amended :
    (∀ (fuel : Nat) (heap : Heap) (ctx : serializeContext) (i : Nat)
        (rest : List GVal) (groups : List String) (mode : GroupMode) (acc : List IR),
        ctx.opts.ignoreNilPointers = true →
        sliceElems (fuel + 2) heap ctx i (GVal.vnilPtr :: rest) groups mode acc
          = some (Except.error (GoErr.simple "skip_field"), ctx.pointers)) ∧
    (∀ (fuel : Nat) (heap : Heap) (ctx : serializeContext) (k : GKey)
        (rest : List (GKey × GVal)) (groups : List String) (mode : GroupMode)
        (acc : List (String × IR)),
        ctx.opts.ignoreNilPointers = true →
        mapEntries (fuel + 2) heap ctx ((k, GVal.vnilPtr) :: rest) groups mode acc
          = some (Except.error (GoErr.simple "skip_field"), ctx.pointers)) ∧
    MarshalToMapWithOptions 10 c2heap (some c2structVal) optsBase []
      = some (Except.ok (some [("b", IR.i 7)])) ∧
    MarshalToMapWithOptions 10 c2mapHeap (some (GVal.vmap 1)) optsBase []
      = some (Except.error (GoErr.typed
          ⟨ErrType.unknown, "skip_field", "Root", some "skip_field"⟩)) := by
  refine ⟨?_, ?_, rfl, rfl⟩
  · intro fuel heap ctx i rest groups mode acc h
    simp [sliceElems, valueToMap, h, serializeContext.withPath]
  · intro fuel heap ctx k rest groups mode acc h
    simp [mapEntries, valueToMap, h, serializeContext.withPath]

/-- C2, amended, witness: the element-level drop propagation instantiated
on the concrete slice `[nil]` and map `{"k": nil}` at the root context. -/
theorem C2_amended_witness :
    sliceElems 3 c2heap (newContext optsBase) 0 [GVal.vnilPtr] [] GroupMode.modeOr []
      = some (Except.error (GoErr.simple "skip_field"), []) ∧
    mapEntries 3 c2mapHeap (newContext optsBase) [(GKey.ks "k", GVal.vnilPtr)] []
        GroupMode.modeOr []
      = some (Except.error (GoErr.simple "skip_field"), []) :=
  ⟨C2_amended.1 1 c2heap (newContext optsBase) 0 [] [] GroupMode.modeOr [] rfl,
   C2_amended.2.1 1 c2mapHeap (newContext optsBase) (GKey.ks "k") [] [] GroupMode.modeOr [] rfl⟩

/-- C3, counterexample.  After SetMaxSize(0), a lookup still inserts into
the cache, and a second lookup of the same type is a hit returning the
entry stored by the first — caching is not disabled. -/
theorem C3_counterexample :
    ((((newFieldCache Nat Nat 5).SetMaxSize 0).getFieldsInfo 7 (fun _ => 5)).2.2
        = false) ∧
    (((((newFieldCache Nat Nat 5).SetMaxSize 0).getFieldsInfo 7
        (fun _ => 5)).2.1.getFieldsInfo 7 (fun _ => 5)).2.2 = true) ∧
    (((((newFieldCache Nat Nat 5).SetMaxSize 0).getFieldsInfo 7
        (fun _ => 5)).2.1.getFieldsInfo 7 (fun _ => 5)).1 = 5) := by
  have h0 : (newFieldCache Nat Nat 5).SetMaxSize 0 = (⟨[], 0⟩ : fieldCache Nat Nat) := by
    unfold fieldCache.SetMaxSize newFieldCache
    rw [evictLoopGt]
    norm_num
  refine ⟨?_, ?_, ?_⟩ <;> rw [h0] <;> rfl

theorem lookup_mem {α β : Type} [DecidableEq α] {l : List (α × β)} {a : α} {b : β}
    (h : List.lookup a l = some b) : (a, b) ∈ l := by
  induction l with
  | nil => simp [List.lookup] at h
  | cons x t ih =>
      rcases x with ⟨k, v⟩
      by_cases hk : a == k
      · have hak : a = k := by simpa using hk
        subst hak
        have hv : v = b := by simpa [List.lookup] using h
        simp [hv]
      · have := ih (by simpa [List.lookup, hk] using h)
        simp [this]

theorem evictLoopGe_length {κ ε : Type} (m : Int) (hm : 0 < m) :
    ∀ (n : Nat) (l : List (κ × ε)), l.length ≤ n →
      ((evictLoopGe l m).length : Int) < m := by
  intro n
  induction n with
  | zero =>
      intro l hl
      rw [evictLoopGe]
      split
      · rename_i hc
        omega
      · rename_i hc
        have h0 : l.length = 0 := by omega
        omega
  | succ n ih =>
      intro l hl
      rw [evictLoopGe]
      split
      · rename_i hc
        apply ih
        have := l.length_dropLast
        omega
      · rename_i hc
        rw [Decidable.not_and_iff_or_not] at hc
        rcases hc with hc | hc
        · omega
        · have h0 : l.length = 0 := by omega
          omega

theorem evictLoopGt_take {κ ε : Type} (m : Int) (hm : 0 < m) :
    ∀ (n : Nat) (l : List (κ × ε)), l.length ≤ n →
      evictLoopGt l m = l.take m.toNat := by
  intro n
  induction n with
  | zero =>
      intro l hl
      have h0 : l = [] := by
        cases l
        · rfl
        · simp at hl
      subst h0
      rw [evictLoopGt]
      simp only [List.length_nil, List.take_nil, ite_eq_right_iff, and_imp]
      intro h1 h2
      omega
  | succ n ih =>
      intro l hl
      rw [evictLoopGt]
      split
      · rename_i hc
        rw [ih l.dropLast (by have := l.length_dropLast; omega)]
        rw [List.dropLast_eq_take, List.take_take]
        congr 1
        omega
      · rename_i hc
        rw [Decidable.not_and_iff_or_not] at hc
        rcases hc with hc | hc
        · have hlen : l.length ≤ m.toNat := by omega
          exact (List.take_of_length_le hlen).symm
        · omega

/-- C3, amended.  Setting the cache capacity to 0 does not disable caching:
a missed lookup still inserts its entry at the front (and no eviction runs,
so the cache only grows), and a later lookup of the same type is a hit
returning the stored entry — resolution does not re-run for cached types. -/
theorem C3_amended {κ ε : Type} [DecidableEq κ] (c : fieldCache κ ε) (t : κ)
    (resolve : κ → ε) (h0 : c.maxSize = 0) :
    (List.lookup t c.evictList = none →
        (c.getFieldsInfo t resolve).2.1.evictList = (t, resolve t) :: c.evictList ∧
        (c.getFieldsInfo t resolve).2.2 = false) ∧
    (∀ e, List.lookup t c.evictList = some e →
        (c.getFieldsInfo t resolve).1 = e ∧ (c.getFieldsInfo t resolve).2.2 = true) ∧
    c.evictList.length ≤ (c.getFieldsInfo t resolve).2.1.evictList.length := by
  unfold fieldCache.getFieldsInfo
  split
  · rename_i e heq
    refine ⟨fun hn => absurd heq (by simp [hn]), fun e' he' => ?_, ?_⟩
    · rw [heq] at he'
      exact ⟨by simpa using he', rfl⟩
    · simp only
      unfold moveToFront
      rw [heq]
      have hmem : (t, e) ∈ c.evictList := lookup_mem heq
      have hlen := List.length_eraseP_add_one (p := fun p => p.1 == t) hmem (by simp)
      simp only [List.length_cons]
      omega
  · rename_i heq
    rw [if_neg (by simp [h0])]
    refine ⟨fun _ => ⟨rfl, rfl⟩, fun e he => absurd he (by simp [heq]), ?_⟩
    simp

/-- C3, amended, witness: a concrete capacity-0 cache holding type 3 serves
a hit with the stored entry. -/
theorem C3_amended_witness :
    ((⟨[(3, 9)], 0⟩ : fieldCache Nat Nat).getFieldsInfo 3 (fun _ => 5)).1 = 9 ∧
    ((⟨[(3, 9)], 0⟩ : fieldCache Nat Nat).getFieldsInfo 3 (fun _ => 5)).2.2 = true :=
  (C3_amended ⟨[(3, 9)], 0⟩ 3 (fun _ => 5) rfl).2.1 9 rfl

/-- C4.  After a completed cache operation with positive capacity, the number
of resident entries never exceeds the capacity: a lookup-with-insert
preserves the bound (the pre-insert loop evicts down below capacity first),
and shrinking the capacity synchronously evicts least-recently-used entries
(the back of the recency list) down to the new bound — the surviving list is
exactly the `m` most recently used entries. -/
theorem C4_capacity {κ ε : Type} [DecidableEq κ] (c : fieldCache κ ε) (t : κ)
    (resolve : κ → ε) (m : Int)
    (hinv : 0 < c.maxSize → (c.evictList.length : Int) ≤ c.maxSize) :
    (0 < c.maxSize →
        (((c.getFieldsInfo t resolve).2.1.evictList.length : Int) ≤ c.maxSize)) ∧
    (0 < m → (c.SetMaxSize m).evictList = c.evictList.take m.toNat ∧
        ((c.SetMaxSize m).evictList.length : Int) ≤ m) := by
  constructor
  · intro hpos
    unfold fieldCache.getFieldsInfo
    split
    · rename_i e heq
      simp only
      unfold moveToFront
      rw [heq]
      have hmem : (t, e) ∈ c.evictList := lookup_mem heq
      have hlen := List.length_eraseP_add_one (p := fun p => p.1 == t) hmem (by simp)
      have := hinv hpos
      simp only [List.length_cons]
      omega
    · simp only
      rw [if_pos hpos]
      have := evictLoopGe_length c.maxSize hpos c.evictList.length c.evictList le_rfl
      simp only [List.length_cons]
      omega
  · intro hm
    have htake := evictLoopGt_take m hm c.evictList.length c.evictList le_rfl
    unfold fieldCache.SetMaxSize
    refine ⟨htake, ?_⟩
    show ((evictLoopGt c.evictList m).length : Int) ≤ m
    rw [htake]
    have h1 : (c.evictList.take m.toNat).length ≤ m.toNat := by
      simp [List.length_take]
    omega

/-- C4, witness: the invariant instantiated on a concrete two-entry cache of
capacity 2 — a fresh insert evicts down and keeps the size at 2, and
shrinking to capacity 1 keeps exactly the most recent entry. -/
theorem C4_capacity_witness :
    ((((⟨[(1, 10), (2, 20)], 2⟩ : fieldCache Nat Nat).getFieldsInfo 3
        (fun _ => 30)).2.1.evictList.length : Int) ≤ 2) ∧
    ((⟨[(1, 10), (2, 20)], 2⟩ : fieldCache Nat Nat).SetMaxSize 1).evictList = [(1, 10)] :=
  ⟨(C4_capacity ⟨[(1, 10), (2, 20)], 2⟩ 3 (fun _ => 30) 1 (fun _ => by norm_num)).1
      (by norm_num),
   ((C4_capacity ⟨[(1, 10), (2, 20)], 2⟩ 3 (fun _ => 30) 1 (fun _ => by norm_num)).2
      (by norm_num)).1⟩

/-- C10.  Once recorded, a reference identity stays in the visited map for
the rest of the call (the map only grows — identities are never removed on
the way out), so a second occurrence of the same identity — here two sibling
fields sharing one pointee, an acyclic shape, as `hasCycleReachableFrom`
confirms — raises a circular-reference error at the second visit's path. -/
theorem C10_visited_persistence :
    (∀ fuel heap ctx v groups mode r ps,
        valueToMap fuel heap ctx v groups mode = some (r, ps) →
        ∀ a, (List.lookup a ctx.pointers).isSome → (List.lookup a ps).isSome) ∧
    valueToMap 10 dagHeap (newContext optsBase) dagVal [] GroupMode.modeOr
      = some (Except.error (GoErr.typed (circularReferenceError "B")), [(1, "A")]) ∧
    hasCycleReachableFrom dagHeap dagVal = false := by
  refine ⟨?_, rfl, rfl⟩
  intro fuel heap ctx v groups mode r ps h a ha
  obtain ⟨pre, hpre⟩ := (traversal_extend fuel).1 _ _ _ _ _ _ _ h
  rw [hpre]
  exact lookup_append_isSome pre ha

/-- C10, witness: the persistence law applied to a scalar traversal started
with address 1 already visited. -/
theorem C10_visited_persistence_witness :
    (List.lookup 1 [((1 : Nat), "A")]).isSome = true :=
  C10_visited_persistence.1 10 dagHeap ⟨"", 0, [(1, "A")], optsBase⟩ (GVal.vint 0)
    [] GroupMode.modeOr (Except.ok (IR.i 0)) [(1, "A")] rfl 1 rfl

/-- C6, counterexample.  A structure whose reference graph contains a cycle
reachable from the root (`hasCycleReachableFrom` is true), traversed with
cycle checking enabled, can nevertheless succeed: the field carrying the
cycle is excluded by group filtering, so the cycle is never followed and no
circular-reference error is raised. -/
theorem C6_counterexample :
    hasCycleReachableFrom cycHeapFiltered (GVal.vptr 1) = true ∧
    valueToMap 10 cycHeapFiltered (newContext optsBase) (GVal.vptr 1) ["base"]
        GroupMode.modeOr
      = some (Except.ok (IR.obj []), [(1, "")]) :=
  ⟨rfl, rfl⟩

/-- C6, amended.  With cycle checking enabled, traversal always terminates
(fuel beyond the explicit budget is never exhausted); whenever it reaches a
pointer — or a non-empty slice/map — whose identity is already in the
visited set, it yields a circular-reference error carrying the path of that
second visit; and on a concrete reachable cycle that is actually followed,
the traversal returns exactly that error.  A reachable cycle whose
references are not followed (group filtering, or a depth limit firing
first) yields no circular-reference error (see the counterexample). -/
theorem C6_amended :
    (∀ fuel heap ctx v groups mode,
        ctx.opts.disableCircularCheck = false →
        gsize v + heapBudget heap ctx.pointers < fuel →
        valueToMap fuel heap ctx v groups mode ≠ none) ∧
    (∀ (ctx : serializeContext) (heap : Heap) (a : Nat),
        ctx.opts.disableCircularCheck = false →
        (List.lookup a ctx.pointers).isSome →
        checkPointer ctx heap (GVal.vptr a)
            = Except.error (circularReferenceError ctx.path) ∧
        (gvalLen heap (GVal.vmap a) ≠ 0 →
          checkPointer ctx heap (GVal.vmap a)
              = Except.error (circularReferenceError ctx.path)) ∧
        (∀ isNil, gvalLen heap (GVal.vslice isNil a) ≠ 0 →
          checkPointer ctx heap (GVal.vslice isNil a)
              = Except.error (circularReferenceError ctx.path))) ∧
    valueToMap 10 cycHeap (newContext optsBase) (GVal.vptr 1) ["public"] GroupMode.modeOr
      = some (Except.error (GoErr.typed (circularReferenceError "Next")), [(1, "")]) ∧
    hasCycleReachableFrom cycHeap (GVal.vptr 1) = true := by
  refine ⟨fun fuel heap ctx v groups mode hdis hbud =>
      (traversal_adequate fuel).1 _ _ _ _ _ hdis hbud, ?_, rfl, rfl⟩
  intro ctx heap a hdis hmem
  refine ⟨?_, ?_, ?_⟩
  · unfold checkPointer
    rw [if_neg (by simp [hdis])]
    show checkAddr ctx a = Except.error (circularReferenceError ctx.path)
    unfold checkAddr
    rw [if_pos hmem]
  · intro hlen
    unfold checkPointer
    rw [if_neg (by simp [hdis])]
    show (if gvalLen heap (GVal.vmap a) = 0 then Except.ok ctx.pointers
          else checkAddr ctx a) = Except.error (circularReferenceError ctx.path)
    rw [if_neg hlen]
    unfold checkAddr
    rw [if_pos hmem]
  · intro isNil hlen
    cases isNil
    · unfold checkPointer
      rw [if_neg (by simp [hdis])]
      show (if gvalLen heap (GVal.vslice false a) = 0 then Except.ok ctx.pointers
            else if (false : Bool) = true then Except.ok ctx.pointers
            else checkAddr ctx a) = Except.error (circularReferenceError ctx.path)
      rw [if_neg hlen, if_neg (by simp)]
      unfold checkAddr
      rw [if_pos hmem]
    · exact absurd (by simp [gvalLen]) hlen

/-- C6, amended, witness: termination on the concrete cyclic structure, and
the second-visit law at a concrete visited address. -/
theorem C6_amended_witness :
    valueToMap 10 cycHeap (newContext optsBase) (GVal.vptr 1) ["public"]
        GroupMode.modeOr ≠ none ∧
    checkPointer ⟨"p", 0, [(5, "q")], optsBase⟩ cycHeap (GVal.vptr 5)
      = Except.error (circularReferenceError "p") :=
  ⟨C6_amended.1 10 cycHeap (newContext optsBase) (GVal.vptr 1) ["public"]
      GroupMode.modeOr rfl (by decide),
   (C6_amended.2.1 ⟨"p", 0, [(5, "q")], optsBase⟩ cycHeap 5 rfl rfl).1⟩

theorem chain_step {O : Options} (hdis : O.disableCircularCheck = false)
    {heap : Heap} {a : Nat} {nodeV : GVal}
    (hga : heapGet heap a = some (HNode.nPtr nodeV))
    {d : Nat} {ptrs : List (Nat × String)} (hnot : List.lookup a ptrs = none)
    (hpass : ¬(0 < O.maxDepth ∧ O.maxDepth < d + 1))
    (fuel : Nat) (groups : List String) (mode : GroupMode) :
    valueToMap (fuel + 1) heap ⟨"", d, ptrs, O⟩ (GVal.vptr a) groups mode
      = valueToMap fuel heap ⟨"", d + 1, (a, "") :: ptrs, O⟩ nodeV groups mode := by
  have henter : serializeContext.enterLevel ⟨"", d, ptrs, O⟩
      = Except.ok ⟨"", d + 1, ptrs, O⟩ := by
    unfold serializeContext.enterLevel
    exact if_neg hpass
  have hcheck : checkPointer ⟨"", d + 1, ptrs, O⟩ heap (GVal.vptr a)
      = Except.ok ((a, "") :: ptrs) := by
    unfold checkPointer
    rw [if_neg (by simp [hdis])]
    show checkAddr ⟨"", d + 1, ptrs, O⟩ a = Except.ok ((a, "") :: ptrs)
    unfold checkAddr
    rw [if_neg (by simp [hnot])]
  simp only [valueToMap, henter, hcheck, hga, serializeContext.withPath, if_true]

theorem chain_step_err {O : Options} {heap : Heap} {a : Nat} {d : Nat}
    {ptrs : List (Nat × String)} (hfail : 0 < O.maxDepth ∧ O.maxDepth < d + 1)
    (fuel : Nat) (groups : List String) (mode : GroupMode) :
    valueToMap (fuel + 1) heap ⟨"", d, ptrs, O⟩ (GVal.vptr a) groups mode
      = some (Except.error (GoErr.typed (maxDepthError "" O.maxDepth)), ptrs) := by
  have henter : serializeContext.enterLevel ⟨"", d, ptrs, O⟩
      = Except.error (maxDepthError "" O.maxDepth) := by
    unfold serializeContext.enterLevel
    exact if_pos hfail
  simp only [valueToMap, henter]

theorem chainHeap_lookup (tail : HNode) :
    ∀ (L j : Nat), 1 ≤ j → j ≤ L →
      heapGet (chainHeap L tail) j
        = some (if j = 1 then tail else HNode.nPtr (GVal.vptr (j - 1))) := by
  intro L
  induction L with
  | zero => intro j h1 h2; omega
  | succ L ih =>
      intro j h1 h2
      cases L with
      | zero =>
          have hj : j = 1 := by omega
          subst hj
          simp [chainHeap, heapGet, List.lookup]
      | succ K =>
          by_cases hj : j = K + 2
          · subst hj
            rw [if_neg (by omega)]
            have harith : K + 2 - 1 = K + 1 := by omega
            rw [harith]
            show heapGet ((K + 2, HNode.nPtr (GVal.vptr (K + 1)))
                :: chainHeap (K + 1) tail) (K + 2)
              = some (HNode.nPtr (GVal.vptr (K + 1)))
            simp [heapGet, List.lookup]
          · have hskip : heapGet (chainHeap (K + 2) tail) j
                = heapGet (chainHeap (K + 1) tail) j := by
              show heapGet ((K + 2, HNode.nPtr (GVal.vptr (K + 1)))
                  :: chainHeap (K + 1) tail) j
                = heapGet (chainHeap (K + 1) tail) j
              have hb : (j == K + 2) = false := by
                simp
                omega
              simp [heapGet, List.lookup, hb]
            rw [hskip]
            exact ih j h1 (by omega)

/-- Evaluating a pointer chain of length `L` rooted at `vptr L`: the chain
yields a depth-exceeded error exactly when the positive depth limit is
exceeded within its `L` pointer levels, and otherwise hands off to the
terminal pointee `w` at depth `d + L`. -/
theorem chain_eval {O : Options} (hdis : O.disableCircularCheck = false)
    (w : GVal) (heap : Heap) :
    ∀ (L : Nat), 1 ≤ L →
    (∀ j, 1 ≤ j → j ≤ L →
        heapGet heap j
          = some (if j = 1 then HNode.nPtr w else HNode.nPtr (GVal.vptr (j - 1)))) →
    ∀ (fuel d : Nat) (ptrs : List (Nat × String)) (groups : List String)
      (mode : GroupMode),
      L + 1 ≤ fuel →
      (∀ j, 1 ≤ j → j ≤ L → List.lookup j ptrs = none) →
      ((0 < O.maxDepth ∧ O.maxDepth < d + L) →
        ∃ ps e, valueToMap fuel heap ⟨"", d, ptrs, O⟩ (GVal.vptr L) groups mode
            = some (Except.error (GoErr.typed e), ps) ∧
          e.etype = ErrType.maxDepthExceeded) ∧
      ((O.maxDepth = 0 ∨ d + L ≤ O.maxDepth) →
        ∃ ps, valueToMap fuel heap ⟨"", d, ptrs, O⟩ (GVal.vptr L) groups mode
            = valueToMap (fuel - L) heap ⟨"", d + L, ps, O⟩ w groups mode) := by
  intro L
  induction L with
  | zero => intro h1; omega
  | succ L ih =>
      intro _ hheap fuel d ptrs groups mode hfuel hptrs
      obtain ⟨f, rfl⟩ : ∃ f, fuel = f + 1 := ⟨fuel - 1, by omega⟩
      by_cases hgate : 0 < O.maxDepth ∧ O.maxDepth < d + 1
      · -- the first pointer level already exceeds the limit
        constructor
        · intro _
          exact ⟨ptrs, maxDepthError "" O.maxDepth, chain_step_err hgate f groups mode, rfl⟩
        · intro hok
          rcases hok with h0 | hle
          · omega
          · omega
      · cases L with
        | zero =>
            -- base: one pointer level, then the terminal pointee
            have hga : heapGet heap 1 = some (HNode.nPtr w) := by
              have := hheap 1 (by omega) (by omega)
              simpa using this
            have hstep := chain_step hdis hga (hptrs 1 (by omega) (by omega)) hgate f groups mode
            constructor
            · intro hfail
              exact absurd hfail hgate
            · intro _
              exact ⟨(1, "") :: ptrs, by simpa using hstep⟩
        | succ K =>
            have hga : heapGet heap (K + 2) = some (HNode.nPtr (GVal.vptr (K + 1))) := by
              have := hheap (K + 2) (by omega) (by omega)
              have harith : K + 2 - 1 = K + 1 := by omega
              rw [if_neg (by omega), harith] at this
              exact this
            have hstep := chain_step hdis hga (hptrs (K + 2) (by omega) (by omega)) hgate
              f groups mode
            have hih := ih (by omega)
              (fun j hj1 hj2 => hheap j hj1 (by omega))
              f (d + 1) ((K + 2, "") :: ptrs) groups mode (by omega)
              (fun j hj1 hj2 => by
                have hb : (j == K + 2) = false := by
                  simp
                  omega
                simp [List.lookup, hb, hptrs j hj1 (by omega)])
            constructor
            · intro hfail
              have hfail' : 0 < O.maxDepth ∧ O.maxDepth < (d + 1) + (K + 1) := by omega
              obtain ⟨ps, e, hres, hety⟩ := hih.1 hfail'
              exact ⟨ps, e, by rw [hstep]; exact hres, hety⟩
            · intro hok
              have hok' : O.maxDepth = 0 ∨ (d + 1) + (K + 1) ≤ O.maxDepth := by omega
              obtain ⟨ps, hres⟩ := hih.2 hok'
              refine ⟨ps, ?_⟩
              rw [hstep, hres]
              have h1 : f - (K + 1) = f + 1 - (K + 2) := by omega
              have h2 : d + 1 + (K + 1) = d + (K + 2) := by omega
              rw [h1, h2]

/-- C7, counterexample.  The claim's exception — a value reached past the
limit which is an empty sequence/mapping is rendered per the empty-value
policy instead of failing — is false for the Array kind: the source
exempts only Slice and Map from the depth-limit error (part_000 line 241,
`if v.Kind() == reflect.Slice || v.Kind() == reflect.Map`).  With maximum
depth 1, a pointer to an empty array (a nesting chain of length 2 whose
value past the limit is an empty sequence) fails with the depth-exceeded
error, while a pointer to an empty slice in the identical position renders
`[]`. -/
theorem C7_counterexample :
    (valueToMap 3 [(1, HNode.nPtr (GVal.varr []))] (newContext (optsDepth 1))
        (GVal.vptr 1) [] GroupMode.modeOr
      = some (Except.error (GoErr.typed (maxDepthError "" 1)), [(1, "")])) ∧
    (valueToMap 3 [(0, HNode.nSlice []), (1, HNode.nPtr (GVal.vslice false 0))]
        (newContext (optsDepth 1)) (GVal.vptr 1) [] GroupMode.modeOr
      = some (Except.ok (IR.arr []), [(1, "")])) :=
  ⟨rfl, rfl⟩

/-- C7, amended.  For pointer-nesting chains of length `L` and configured
maximum depth `D`: traversal fails with a depth-exceeded error when
`0 < D < L`; it succeeds when `D = 0` (unlimited) or `D ≥ L`; a value
reached just past the limit that is an empty slice (or map) is rendered
per the empty-value policy (here the default: an empty array) instead of
failing — but the exemption does not extend to the Array kind: an empty
array reached past the limit, at the end of a chain or at any depth at or
beyond a positive limit, still fails with the depth-exceeded error; and
scalar values never increment the depth counter — they succeed at any
depth, under any limit, leaving the visited map untouched. -/
theorem C7_amended (L D : Nat) (hL : 1 ≤ L) :
    (0 < D → D < L →
      ∃ ps e, valueToMap (L + 2) (scalarChainHeap L) (newContext (optsDepth D))
          (GVal.vptr L) [] GroupMode.modeOr
        = some (Except.error (GoErr.typed e), ps) ∧
        e.etype = ErrType.maxDepthExceeded) ∧
    (D = 0 ∨ L ≤ D →
      ∃ ps, valueToMap (L + 2) (scalarChainHeap L) (newContext (optsDepth D))
          (GVal.vptr L) [] GroupMode.modeOr = some (Except.ok (IR.i 7), ps)) ∧
    (∃ ps, valueToMap (L + 3) (emptyTailChainHeap L) (newContext (optsDepth L))
          (GVal.vptr L) [] GroupMode.modeOr = some (Except.ok (IR.arr []), ps)) ∧
    (∃ ps e, valueToMap (L + 3) (emptyArrayTailChainHeap L) (newContext (optsDepth L))
          (GVal.vptr L) [] GroupMode.modeOr
        = some (Except.error (GoErr.typed e), ps) ∧
        e.etype = ErrType.maxDepthExceeded) ∧
    (∀ (f : Nat) (heap : Heap) (p : String) (d : Nat) (ptrs : List (Nat × String))
        (groups : List String) (mode : GroupMode),
      0 < D → D ≤ d →
      valueToMap (f + 1) heap ⟨p, d, ptrs, optsDepth D⟩ (GVal.varr []) groups mode
        = some (Except.error (GoErr.typed (maxDepthError p D)), ptrs)) ∧
    (∀ (heap : Heap) (p : String) (d : Nat) (ptrs : List (Nat × String))
        (n : Int) (x : Bool) (str : String) (groups : List String) (mode : GroupMode),
      valueToMap 1 heap ⟨p, d, ptrs, optsDepth D⟩ (GVal.vint n) groups mode
          = some (Except.ok (IR.i n), ptrs) ∧
      valueToMap 1 heap ⟨p, d, ptrs, optsDepth D⟩ (GVal.vbool x) groups mode
          = some (Except.ok (IR.b x), ptrs) ∧
      valueToMap 1 heap ⟨p, d, ptrs, optsDepth D⟩ (GVal.vstr str) groups mode
          = some (Except.ok (IR.s str), ptrs)) := by
  refine ⟨?_, ?_, ?_, ?_, ?_, ?_⟩
  · intro hD hDL
    have hc := chain_eval (O := optsDepth D) rfl (GVal.vint 7) (scalarChainHeap L) L hL
      (fun j h1 h2 => chainHeap_lookup (HNode.nPtr (GVal.vint 7)) L j h1 h2)
      (L + 2) 0 [] [] GroupMode.modeOr (by omega) (fun j _ _ => rfl)
    obtain ⟨ps, e, hres, hety⟩ := hc.1 ⟨hD, by simpa using hDL⟩
    exact ⟨ps, e, hres, hety⟩
  · intro hok
    have hc := chain_eval (O := optsDepth D) rfl (GVal.vint 7) (scalarChainHeap L) L hL
      (fun j h1 h2 => chainHeap_lookup (HNode.nPtr (GVal.vint 7)) L j h1 h2)
      (L + 2) 0 [] [] GroupMode.modeOr (by omega) (fun j _ _ => rfl)
    obtain ⟨ps, hres⟩ := hc.2 (by simpa using hok)
    refine ⟨ps, ?_⟩
    unfold newContext
    rw [hres]
    have h2 : L + 2 - L = 2 := by omega
    rw [h2]
    rfl
  · have hskip : ∀ j, 1 ≤ j → j ≤ L →
        heapGet (emptyTailChainHeap L) j
          = heapGet (chainHeap L (HNode.nPtr (GVal.vslice false 0))) j := by
      intro j h1 h2
      have hb : (j == 0) = false := by
        simp
        omega
      simp [emptyTailChainHeap, heapGet, List.lookup, hb]
    have hc := chain_eval (O := optsDepth L) rfl (GVal.vslice false 0)
      (emptyTailChainHeap L) L hL
      (fun j h1 h2 => by
        rw [hskip j h1 h2]
        exact chainHeap_lookup (HNode.nPtr (GVal.vslice false 0)) L j h1 h2)
      (L + 3) 0 [] [] GroupMode.modeOr (by omega) (fun j _ _ => rfl)
    obtain ⟨ps, hres⟩ := hc.2 (Or.inr (by simp [optsDepth]))
    refine ⟨ps, ?_⟩
    unfold newContext
    rw [hres]
    have h3 : L + 3 - L = 3 := by omega
    rw [h3]
    have henter : serializeContext.enterLevel ⟨"", 0 + L, ps, optsDepth L⟩
        = Except.error (maxDepthError "" L) := by
      unfold serializeContext.enterLevel
      refine if_pos ⟨?_, ?_⟩
      · show 0 < L
        omega
      · show L < (0 + L) + 1
        omega
    have hg0 : heapGet (emptyTailChainHeap L) 0 = some (HNode.nSlice []) := rfl
    simp only [valueToMap, henter, gvalLen, hg0]
    simp [optsDepth]
  · have hc := chain_eval (O := optsDepth L) rfl (GVal.varr [])
      (emptyArrayTailChainHeap L) L hL
      (fun j h1 h2 => chainHeap_lookup (HNode.nPtr (GVal.varr [])) L j h1 h2)
      (L + 3) 0 [] [] GroupMode.modeOr (by omega) (fun j _ _ => rfl)
    obtain ⟨ps, hres⟩ := hc.2 (Or.inr (by simp [optsDepth]))
    refine ⟨ps, maxDepthError "" L, ?_, rfl⟩
    unfold newContext
    rw [hres]
    have h3 : L + 3 - L = 3 := by omega
    rw [h3]
    have henter : serializeContext.enterLevel ⟨"", 0 + L, ps, optsDepth L⟩
        = Except.error (maxDepthError "" L) := by
      unfold serializeContext.enterLevel
      refine if_pos ⟨?_, ?_⟩
      · show 0 < L
        omega
      · show L < (0 + L) + 1
        omega
    simp only [valueToMap, henter]
  · intro f heap p d ptrs groups mode hD hDd
    have henter : serializeContext.enterLevel ⟨p, d, ptrs, optsDepth D⟩
        = Except.error (maxDepthError p D) := by
      unfold serializeContext.enterLevel
      refine if_pos ⟨?_, ?_⟩
      · show 0 < D
        omega
      · show D < d + 1
        omega
    simp only [valueToMap, henter]
  · intro heap p d ptrs n x str groups mode
    refine ⟨rfl, rfl, ?_⟩
    simp [valueToMap, optsDepth]

/-- C7, amended, witness: the depth law at `L = 3` with `D = 2` (failure),
`D = 3` and `D = 0` (success), the empty-slice exception at `L = 1`, the
empty-ARRAY failure at the same position, an empty array at depth 5 under
limit 2, and a scalar at depth 99 under limit 2. -/
theorem C7_amended_witness :
    (∃ ps e, valueToMap 5 (scalarChainHeap 3) (newContext (optsDepth 2))
        (GVal.vptr 3) [] GroupMode.modeOr
      = some (Except.error (GoErr.typed e), ps) ∧
      e.etype = ErrType.maxDepthExceeded) ∧
    (∃ ps, valueToMap 5 (scalarChainHeap 3) (newContext (optsDepth 3))
        (GVal.vptr 3) [] GroupMode.modeOr = some (Except.ok (IR.i 7), ps)) ∧
    (∃ ps, valueToMap 5 (scalarChainHeap 3) (newContext (optsDepth 0))
        (GVal.vptr 3) [] GroupMode.modeOr = some (Except.ok (IR.i 7), ps)) ∧
    (∃ ps, valueToMap 4 (emptyTailChainHeap 1) (newContext (optsDepth 1))
        (GVal.vptr 1) [] GroupMode.modeOr = some (Except.ok (IR.arr []), ps)) ∧
    (∃ ps e, valueToMap 4 (emptyArrayTailChainHeap 1) (newContext (optsDepth 1))
        (GVal.vptr 1) [] GroupMode.modeOr
      = some (Except.error (GoErr.typed e), ps) ∧
      e.etype = ErrType.maxDepthExceeded) ∧
    valueToMap 1 [] ⟨"x", 5, [], optsDepth 2⟩ (GVal.varr []) [] GroupMode.modeOr
      = some (Except.error (GoErr.typed (maxDepthError "x" 2)), []) ∧
    valueToMap 1 [] ⟨"x", 99, [], optsDepth 2⟩ (GVal.vint 7) [] GroupMode.modeOr
      = some (Except.ok (IR.i 7), []) :=
  ⟨(C7_amended 3 2 (by norm_num)).1 (by norm_num) (by norm_num),
   (C7_amended 3 3 (by norm_num)).2.1 (Or.inr (by norm_num)),
   (C7_amended 3 0 (by norm_num)).2.1 (Or.inl rfl),
   (C7_amended 1 0 (by norm_num)).2.2.1,
   (C7_amended 1 0 (by norm_num)).2.2.2.1,
   (C7_amended 1 2 (by norm_num)).2.2.2.2.1 0 [] "x" 5 [] [] GroupMode.modeOr
     (by norm_num) (by norm_num),
   ((C7_amended 1 2 (by norm_num)).2.2.2.2.2 [] "x" 99 [] 7 true "s" []
      GroupMode.modeOr).1⟩

end JsonGroup
